import Mathlib

/-!
Shallow embedding of the num2words rendering engine (Rust sources under
src/src) and proofs about it.  Numeric values of the supplied
arbitrary-precision decimal type (num_bigfloat::BigFloat) are modelled as
exact rationals plus the two infinities; NaN is never constructed (it is
rejected at parse time).  Machine-integer conversions of the supplied
numeric type are modelled as exact on their range.  All definitions are
computable and kernel-reducible so that concrete inputs evaluate by
`decide`.
-/

deriving instance DecidableEq for Except

/-- Error type of the builder, `Num2Err` (src/src/num2words.rs, lines 6-76). -/
inductive Num2Err where
  | CannotConvert
  | NegativeOrdinal
  | FloatingOrdinal
  | FloatingYear
  | InfiniteOrdinal
  | InfiniteYear
deriving DecidableEq, Repr

/-- Model of the supplied numeric type `num_bigfloat::BigFloat`: a finite
value is an exact rational; positive and negative infinity are separate
constructors; NaN is excluded by construction (rejected at parse time). -/
inductive BigFloat where
  | fin (q : ℚ)
  | posInf
  | negInf
deriving DecidableEq

/-- Truncation of a rational toward zero, the semantics of the supplied
numeric type method `int()` and of its truncating integer conversions. -/
def ratTrunc (q : ℚ) : ℤ := Int.tdiv q.num (q.den : ℤ)

/-- Exact product of a rational with an integer, written on the `mkRat`
normal form so that it kernel-reduces. -/
def qmulInt (q : ℚ) (k : ℤ) : ℚ := mkRat (q.num * k) q.den

/-- Fractional part (toward zero, keeping the sign of the input), the
semantics of the supplied numeric type method `frac()`. -/
def qfrac (q : ℚ) : ℚ := mkRat (q.num - ratTrunc q * (q.den : ℤ)) q.den

/-- Absolute value of a rational, the supplied numeric type method `abs()`. -/
def qabs (q : ℚ) : ℚ := mkRat |q.num| q.den

namespace BigFloat

/-- Test `is_zero()` of the supplied numeric type. -/
def isZero : BigFloat → Bool
  | fin q => decide (q = 0)
  | _ => false

/-- Test `is_negative()` of the supplied numeric type. -/
def isNegative : BigFloat → Bool
  | fin q => decide (q < 0)
  | posInf => false
  | negInf => true

/-- Test `is_inf_pos()` of the supplied numeric type. -/
def isInfPos : BigFloat → Bool
  | posInf => true
  | _ => false

/-- Test `is_inf_neg()` of the supplied numeric type. -/
def isInfNeg : BigFloat → Bool
  | negInf => true
  | _ => false

/-- Test `is_inf()` of the supplied numeric type. -/
def isInf : BigFloat → Bool
  | fin _ => false
  | _ => true

/-- Fractional-part operation `frac()` of the supplied numeric type; the
infinite cases are never inspected by the embedded code (every caller
tests `is_inf` style predicates first). -/
def frac : BigFloat → BigFloat
  | fin q => fin (qfrac q)
  | x => x

end BigFloat

/-- The division `num /= bf_1000` of the supplied decimal floating type,
written on the `mkRat` normal form so that it kernel-reduces.  On the
modelled values a division by 1000 is a decimal exponent shift, hence
exact; the flush to zero on exponent underflow is applied by the caller,
`split_thousands_bf_go`. -/
def bf_div_1000 (q : ℚ) : ℚ := mkRat q.num (q.den * 1000)

/-- The remainder `num % bf_1000` of the supplied numeric type: the value
minus 1000 times the truncation toward zero of the value over 1000,
written on the `mkRat` normal form. -/
def bf_mod_1000 (q : ℚ) : ℚ :=
  mkRat (q.num - 1000 * Int.tdiv q.num ((q.den : ℤ) * 1000) * (q.den : ℤ)) q.den

/-- Faithful translation of the while loop shared by
`English::split_thousands` (src/src/lang/en.rs, lines 73-83),
`French::split_thousands` (src/src/lang/fr.rs, lines 114-124) and
`Ukrainian::split_thousands` (src/src/lang/uk.rs, lines 665-675).  While
the value is nonzero, each round pushes the truncating conversion
`(num % bf_1000).to_u64().unwrap()` of the remainder, which is in range
0..999 on the non-negative loop states, and then runs `num /= bf_1000`,
the floating division of the supplied type with no truncation: the
quotient is exact until it falls below the smallest positive magnitude
of the supplied type, the parameter `uflow`, at which point it
underflows to zero and the loop stops.  After the last nonzero triplet
the value is a nonzero fraction, so the loop keeps pushing zero entries
until that underflow.  The exponent range of the supplied type is
outside this repository, hence `uflow` stays a parameter of the model;
`none` marks fuel exhaustion and is never returned once the fuel exceeds
the iteration count. -/
def split_thousands_bf_go (uflow : ℚ) : ℚ → ℕ → Option (List ℕ)
  | q, 0 => if q = 0 then some [] else none
  | q, fuel + 1 =>
    if q = 0 then some []
    else
      (split_thousands_bf_go uflow
          (if bf_div_1000 q < uflow then 0 else bf_div_1000 q) fuel).map
        (fun l => (ratTrunc (bf_mod_1000 q)).toNat :: l)

namespace English

/-- Table `UNITS` (src/src/lang/en.rs, lines 9-11). -/
def UNITS : List String :=
  ["one", "two", "three", "four", "five", "six", "seven", "eight", "nine"]

/-- Table `TENS` (src/src/lang/en.rs, lines 13-15). -/
def TENS : List String :=
  ["ten", "twenty", "thirty", "forty", "fifty", "sixty", "seventy", "eighty", "ninety"]

/-- Table `TEENS` (src/src/lang/en.rs, lines 17-28). -/
def TEENS : List String :=
  ["ten", "eleven", "twelve", "thirteen", "fourteen", "fifteen", "sixteen",
   "seventeen", "eighteen", "nineteen"]

/-- Table `MEGAS` (src/src/lang/en.rs, lines 33-55). -/
def MEGAS : List String :=
  ["thousand", "million", "billion", "trillion", "quadrillion", "quintillion",
   "sextillion", "septillion", "octillion", "nonillion", "decillion",
   "undecillion", "duodecillion", "tredecillion", "quattuordecillion",
   "quindecillion", "sexdecillion", "septendecillion", "octodecillion",
   "novemdecillion", "vigintillion"]

end English

/-- Renderer state of the English language module (src/src/lang/en.rs,
lines 4-7). -/
structure English where
  prefer_oh : Bool
  prefer_nil : Bool
deriving DecidableEq

namespace English

/-- Fuel-bounded body of the value-level idealization of the while loop
of `English::split_thousands` (src/src/lang/en.rs, lines 73-83), with
truncating division by 1000; fuel equal to the starting argument always
suffices since the argument shrinks every round.  The source statement
`num /= bf_1000` is the floating division of the supplied type, under
which the real loop keeps running on the leftover fraction after the
last triplet and pushes trailing zero entries until the quotient
underflows to zero; `split_thousands_bf_go` is the faithful translation,
and theorem `bf_go_padded` proves that this idealization drops exactly
that zero padding.  The padding is inert for every renderer (theorems
`en_go_pad`, `fr_go_pad` and `uk_go_pad`): a zero triplet emits no
words, leaves the `first_elem` flag unchanged and never reaches the
scale-word bound check, which is guarded by the triplet being nonzero. -/
def split_thousands_go : ℕ → ℕ → List ℕ
  | 0, _ => []
  | fuel + 1, num => if num = 0 then [] else num % 1000 :: split_thousands_go fuel (num / 1000)

/-- Value-level idealization of `English::split_thousands`
(src/src/lang/en.rs, lines 73-83) on the non-negative integral
magnitudes it is applied to: the base-1000 triplets of the magnitude
without the trailing zero padding the source loop produces; see
`split_thousands_go` on the idealization and `split_thousands_bf` for
the faithful form. -/
def split_thousands (num : ℕ) : List ℕ := split_thousands_go num num

/-- `English::split_thousands` (src/src/lang/en.rs, lines 73-83) as the
source executes it on the supplied numeric type: the faithful loop
`split_thousands_bf_go` started at the non-negative integral magnitude
the renderers pass in. -/
def split_thousands_bf (uflow : ℚ) (num : ℕ) (fuel : ℕ) : Option (List ℕ) :=
  split_thousands_bf_go uflow (num : ℚ) fuel

/-- Loop body of `English::int_to_cardinal` (src/src/lang/en.rs, lines
106-149): iteration over the enumerated triplets, most significant first,
threading the accumulated words and the `first_elem` flag. -/
def int_to_cardinal_go : List (ℕ × ℕ) → List String → Bool → Except Num2Err (List String)
  | [], words, _ => .ok words
  | (i, triplet) :: rest, words, first_elem =>
    let hundreds := triplet / 100 % 10
    let tens := triplet / 10 % 10
    let units := triplet % 10
    let chunk1 : List String :=
      if hundreds > 0 then [UNITS.getD (hundreds - 1) "", "hundred"] else []
    let step : List String × Bool :=
      if tens ≠ 0 ∨ units ≠ 0 then
        let andp : List String × Bool :=
          if i = 0 ∧ first_elem = false then (["and"], first_elem) else ([], false)
        let tw : List String :=
          if tens = 0 then [UNITS.getD (units - 1) ""]
          else if tens = 1 then [TEENS.getD units ""]
          else
            [if units = 0 then TENS.getD (tens - 1) ""
             else TENS.getD (tens - 1) "" ++ "-" ++ UNITS.getD (units - 1) ""]
        (andp.1 ++ tw, andp.2)
      else ([], first_elem)
    if i ≠ 0 ∧ triplet ≠ 0 then
      if i > MEGAS.length then .error Num2Err.CannotConvert
      else int_to_cardinal_go rest (words ++ chunk1 ++ step.1 ++ [MEGAS.getD (i - 1) ""]) step.2
    else int_to_cardinal_go rest (words ++ chunk1 ++ step.1) step.2

/-- Translation of `English::int_to_cardinal` (src/src/lang/en.rs, lines
85-152); the integral value carried by the BigFloat argument is passed as
an integer. -/
def int_to_cardinal (self : English) (num : ℤ) : Except Num2Err String :=
  if num = 0 then
    .ok (if self.prefer_oh then "oh" else if self.prefer_nil then "nil" else "zero")
  else
    match int_to_cardinal_go ((split_thousands num.natAbs).enum.reverse)
        (if num < 0 then ["minus"] else []) true with
    | .error e => .error e
    | .ok ws => .ok (String.intercalate " " ws)

/-- Fuel-bounded digit loop of `English::float_to_cardinal`
(src/src/lang/en.rs, lines 167-174).  Fuel bounds the iteration count of
the source loop `while !ordinal_part.is_zero()`; `none` models a run
that does not terminate within the fuel (the supplied numeric type
guarantees a finite decimal expansion, for which the denominator of the
fractional part is always enough fuel).  A negative extracted digit makes
the modelled `to_u64().unwrap()` conversion abort, also rendered `none`. -/
def float_digits_go (self : English) : ℚ → ℕ → Option (List String)
  | op, 0 => if op = 0 then some [] else none
  | op, fuel + 1 =>
    if op = 0 then some []
    else
      let d := qmulInt op 10
      let digit := ratTrunc d
      let op2 := qfrac d
      if digit < 0 then none
      else
        let w := if digit = 0 then (if self.prefer_oh then "oh" else "zero")
                 else UNITS.getD (digit.toNat - 1) ""
        (float_digits_go self op2 fuel).map (fun ws => w :: ws)

/-- Translation of `English::float_to_cardinal` (src/src/lang/en.rs,
lines 154-176); `none` models divergence or a conversion abort in the
digit loop, which cannot happen for values of the supplied numeric type. -/
def float_to_cardinal (self : English) (num : ℚ) : Option (Except Num2Err String) :=
  let integral_part := ratTrunc num
  let head : Except Num2Err (List String) :=
    if integral_part ≠ 0 then
      match int_to_cardinal self integral_part with
      | .error e => .error e
      | .ok w => .ok [w]
    else .ok []
  match head with
  | .error e => some (.error e)
  | .ok ws =>
    let op := qfrac num
    let ws := if op ≠ 0 then ws ++ ["point"] else ws
    match float_digits_go self op op.den with
    | none => none
    | some ds => some (.ok (String.intercalate " " (ws ++ ds)))

/-- Translation of `English::to_cardinal` (src/src/lang/en.rs, lines
180-190). -/
def to_cardinal (self : English) (num : BigFloat) : Option (Except Num2Err String) :=
  match num with
  | .posInf => some (.ok "infinity")
  | .negInf => some (.ok "minus infinity")
  | .fin q =>
    if qfrac q = 0 then some (int_to_cardinal self q.num)
    else float_to_cardinal self q

/-- Translation of `English::to_ordinal_num` (src/src/lang/en.rs, lines
249-262) on the non-negative integral values admitted by the dispatch
preconditions; the truncating `to_u64`/`to_u128` conversions of the
supplied numeric type are modelled as exact. -/
def to_ordinal_num (_self : English) (num : ℕ) : Except Num2Err String :=
  let tail := num % 100
  let last := tail % 10
  .ok (Nat.repr num ++
    (if tail / 10 ≠ 1 ∧ last = 1 then "st"
     else if tail / 10 ≠ 1 ∧ last = 2 then "nd"
     else if tail / 10 ≠ 1 ∧ last = 3 then "rd"
     else "th"))

/-- Translation of `English::to_year` (src/src/lang/en.rs, lines 264-300)
on integral values; the leading `FloatingYear` rejection of
non-integral input is discharged by the integer domain, and the
truncating `to_i64` conversions of the supplied numeric type are
modelled as exact. -/
def to_year (self : English) (num : ℤ) : Except Num2Err String :=
  let suf := if num < 0 then " BC" else ""
  let n := num.natAbs
  let high := n / 100
  let low := n % 100
  let year_word : Except Num2Err String :=
    if high = 0 ∨ (high % 10 = 0 ∧ low < 10) ∨ high ≥ 100 then
      int_to_cardinal self (n : ℤ)
    else do
      let high_word ← int_to_cardinal self (high : ℤ)
      let low_word ←
        if low = 0 then pure "hundred"
        else if low < 10 then do
          let w ← int_to_cardinal self (low : ℤ)
          pure ("oh-" ++ w)
        else int_to_cardinal self (low : ℤ)
      pure (high_word ++ " " ++ low_word)
  year_word.map (fun w => w ++ suf)

end English

/-- Currency identifiers, `Currency` (src/src/currency.rs, lines 58-103). -/
inductive Currency where
  | AED | ARS | AUD | BRL | CAD | CHF | CLP | CNY | COP | CRC
  | DINAR | DOLLAR | DZD | EUR | GBP | HKD | IDR | ILS | INR | JPY
  | KRW | KWD | KZT | MXN | MYR | NOK | NZD | PEN | PESO | PHP
  | PLN | QAR | RIYAL | RUB | SAR | SGD | THB | TRY | TWD | UAH
  | USD | UYU | VND | ZAR
deriving DecidableEq

namespace Currency

/-- Translation of `Currency::default_string` (src/src/currency.rs, lines
110-176); the placeholder templates with their replace-substitution
are translated to concatenation at the placeholder position. -/
def default_string (c : Currency) (plural_form : Bool) : String :=
  let s := if plural_form then "s" else ""
  match c with
  | .AED => "dirham" ++ s
  | .ARS => "argentine peso" ++ s
  | .AUD => "australian dollar" ++ s
  | .BRL => if plural_form then "reais" else "real"
  | .CAD => "canadian dollar" ++ s
  | .CHF => "franc" ++ s
  | .CLP => "chilean peso" ++ s
  | .CNY => "yuan" ++ s
  | .COP => "colombian peso" ++ s
  | .CRC => if plural_form then "colones" else "colón"
  | .DINAR => "dinar" ++ s
  | .DOLLAR => "dollar" ++ s
  | .DZD => "algerian dinar" ++ s
  | .EUR => "euro" ++ s
  | .GBP => "pound" ++ s
  | .HKD => "hong kong dollar" ++ s
  | .IDR => "indonesian rupiah" ++ s
  | .ILS => "new shekel" ++ s
  | .INR => "rupee" ++ s
  | .JPY => "yen" ++ s
  | .KRW => "won" ++ s
  | .KWD => "kuwaiti dinar" ++ s
  | .KZT => "tenge" ++ s
  | .MXN => "mexican peso" ++ s
  | .MYR => "ringgit" ++ s
  | .NOK => "norwegian krone" ++ s
  | .NZD => "new zealand dollar" ++ s
  | .PEN => if plural_form then "soles" else "sol"
  | .PESO => "peso" ++ s
  | .PHP => "philippine peso" ++ s
  | .PLN => "zloty" ++ s
  | .QAR => "qatari riyal" ++ s
  | .RIYAL => "riyal" ++ s
  | .RUB => "ruble" ++ s
  | .SAR => "saudi riyal" ++ s
  | .SGD => "singapore dollar" ++ s
  | .THB => "baht" ++ s
  | .TRY => "lira" ++ s
  | .TWD => "taiwan dollar" ++ s
  | .UAH => "hryvnia" ++ s
  | .USD => "US dollar" ++ s
  | .UYU => "uruguayan peso" ++ s
  | .VND => "dong" ++ s
  | .ZAR => "rand" ++ s

/-- Translation of `Currency::default_subunit_string` (src/src/currency.rs,
lines 179-198); the caller passes the fallback template with the
placeholder already split off, and the branches without a placeholder
(`"fils"`) take no plural suffix, exactly as `replace` leaves them. -/
def default_subunit_string (c : Currency) (cent : String) (plural_form : Bool) : String :=
  let s := if plural_form then "s" else ""
  match c with
  | .AED | .KWD => "fils"
  | .ARS | .BRL | .CLP | .COP | .MXN => "centavo" ++ s
  | .CRC => "céntimo" ++ s
  | .IDR | .MYR => "sen" ++ s
  | .KRW => "jeon" ++ s
  | .SAR => "halalat" ++ s
  | .THB => "satang" ++ s
  | .UAH => "kopiyok" ++ s
  | .UYU => "centesimo" ++ s
  | .VND => "xu" ++ s
  | _ => cent ++ s

/-- Modelled from the spec: `Currency::default_cent_string`, called by the
English renderer (src/src/lang/en.rs, line 70), is absent from the
currency.rs of the snapshot, which only defines `default_subunit_string`.  Per
the spec the catalog supplies a minor-unit name template with a
pluralization marker; the English default minor unit is the generic
"cent", so the lookup is modelled as the default subunit lookup with the
"cent" template. -/
def default_cent_string (c : Currency) (plural_form : Bool) : String :=
  c.default_subunit_string "cent" plural_form

end Currency

namespace English

/-- Translation of `English::currencies` (src/src/lang/en.rs, lines 65-67). -/
def currencies (_self : English) (currency : Currency) (plural_form : Bool) : String :=
  currency.default_string plural_form

/-- Translation of `English::cents` (src/src/lang/en.rs, lines 69-71). -/
def cents (_self : English) (currency : Currency) (plural_form : Bool) : String :=
  currency.default_cent_string plural_form

/-- Translation of `English::to_currency` (src/src/lang/en.rs, lines
302-334).  The recursive call of the source on the integral part always lands
in the zero-fraction branch (the integral part has zero fractional part),
so that call is unfolded here and the definition needs no recursion. -/
def to_currency (self : English) (num : BigFloat) (currency : Currency) :
    Except Num2Err String :=
  match num with
  | .posInf => .ok ("an infinity of " ++ self.currencies currency true)
  | .negInf => .ok ("minus " ++ "an infinity of " ++ self.currencies currency true)
  | .fin q =>
    if qfrac q = 0 then
      (int_to_cardinal self q.num).map
        (fun words => words ++ " " ++ self.currencies currency (decide (q ≠ 1)))
    else
      let integral_part := ratTrunc q
      let cents_nb := Int.tmod (ratTrunc (qmulInt q 100)) 100
      do
        let cents_words ← int_to_cardinal self cents_nb
        let cents_suffix := self.cents currency (decide (cents_nb ≠ 1))
        let integral_word ← (int_to_cardinal self integral_part).map
          (fun words => words ++ " " ++ self.currencies currency (decide (integral_part ≠ 1)))
        if cents_nb = 0 then pure integral_word
        else if integral_part = 0 then pure (cents_words ++ " " ++ cents_suffix)
        else pure (integral_word ++ " and " ++ cents_words ++ " " ++ cents_suffix)

end English

namespace French

/-- Table `UNITS` (src/src/lang/fr.rs, lines 9-11). -/
def UNITS : List String :=
  ["un", "deux", "trois", "quatre", "cinq", "six", "sept", "huit", "neuf"]

/-- Table `TENS` (src/src/lang/fr.rs, lines 13-23). -/
def TENS : List String :=
  ["dix", "vingt", "trente", "quarante", "cinquante", "soixante",
   "soixante-dix", "quatre-vingt", "quatre-vingt-dix"]

/-- Table `TEENS` (src/src/lang/fr.rs, lines 25-28). -/
def TEENS : List String :=
  ["dix", "onze", "douze", "treize", "quatorze", "quinze", "seize",
   "dix-sept", "dix-huit", "dix-neuf"]

/-- Table `MEGAS` (src/src/lang/fr.rs, lines 30-64). -/
def MEGAS : List String :=
  ["mille", "million", "milliard", "billion", "billiard", "trillion",
   "trilliard", "quadrillion", "quadrilliard", "quintillion", "quintilliard",
   "sextillion", "sextilliard", "septillion", "septilliard", "octillion",
   "octilliard", "nonillion", "nonilliard", "décillion", "décilliard",
   "unodécillion", "unodécilliard", "duodécillion", "duodécilliard",
   "trédécillion", "trédécilliard", "quattuordécillion", "quattuordécilliard",
   "quindécillion", "quindécilliard", "sexdécillion", "sexdécilliard"]

end French

/-- Renderer state of the French language module (src/src/lang/fr.rs,
lines 4-7). -/
structure French where
  feminine : Bool
  reformed : Bool
deriving DecidableEq

namespace French

/-- Translation of `French::currencies` (src/src/lang/fr.rs, lines
71-104); the placeholder templates with their replace-substitution
are translated to concatenation at the placeholder position. -/
def currencies (_self : French) (currency : Currency) (plural_form : Bool) : String :=
  let s := if plural_form then "s" else ""
  match currency with
  | .ARS => "peso" ++ s ++ " argentin"
  | .AUD => "dollar" ++ s ++ " australien"
  | .BRL => if plural_form then "réaux" else "réal"
  | .CAD => "dollar" ++ s ++ " canadien"
  | .CLP => "peso" ++ s ++ " chilien"
  | .COP => "peso" ++ s ++ " colombien"
  | .DZD => "dinar" ++ s ++ " algérien"
  | .GBP => "livre" ++ s
  | .HKD => "dollar" ++ s ++ " de Hong Kong"
  | .IDR => "roupie" ++ s ++ " indonésienne"
  | .ILS => "shekel" ++ s
  | .INR => "roupie" ++ s
  | .KWD => "dinar" ++ s ++ " koweïtien"
  | .MXN => "peso" ++ s ++ " mexicain"
  | .NOK => "couronne" ++ s ++ " norvégienne"
  | .NZD => "dollar" ++ s ++ " néo-zélandais"
  | .PHP => "peso" ++ s ++ " phillippin"
  | .PLN => "złoty" ++ s
  | .QAR => "riyal" ++ s ++ " qatarien"
  | .RUB => "rouble" ++ s
  | .SAR => "riyal" ++ s ++ " saoudien"
  | .SGD => "dollar" ++ s ++ " de Singapour"
  | .THB => "baht" ++ s
  | .TRY => "lire" ++ s
  | .TWD => "dollar" ++ s ++ " de Taïwan"
  | .UAH => "hryvnia" ++ s
  | .USD => "dollar" ++ s ++ " américain"
  | .UYU => "peso" ++ s ++ " uruguayen"
  | _ => currency.default_string plural_form

/-- Translation of `French::cents` (src/src/lang/fr.rs, lines 106-112). -/
def cents (_self : French) (currency : Currency) (plural_form : Bool) : String :=
  let s := if plural_form then "s" else ""
  match currency with
  | .UAH => "kopeck" ++ s
  | _ => currency.default_subunit_string "centime" plural_form

/-- Fuel-bounded body of the value-level idealization of the while loop
of `French::split_thousands` (src/src/lang/fr.rs, lines 114-124),
identical to the English one; see `English.split_thousands_go` for how
the idealization relates to the floating division of the source. -/
def split_thousands_go : ℕ → ℕ → List ℕ
  | 0, _ => []
  | fuel + 1, num => if num = 0 then [] else num % 1000 :: split_thousands_go fuel (num / 1000)

/-- Value-level idealization of `French::split_thousands` on the
non-negative integral magnitudes it is applied to, without the trailing
zero padding of the source loop; `split_thousands_bf` is the faithful
form. -/
def split_thousands (num : ℕ) : List ℕ := split_thousands_go num num

/-- `French::split_thousands` (src/src/lang/fr.rs, lines 114-124) as the
source executes it on the supplied numeric type: the faithful loop
`split_thousands_bf_go` started at the non-negative integral magnitude. -/
def split_thousands_bf (uflow : ℚ) (num : ℕ) (fuel : ℕ) : Option (List ℕ) :=
  split_thousands_bf_go uflow (num : ℚ) fuel

/-- Loop body of `French::int_to_cardinal` (src/src/lang/fr.rs, lines
140-216): iteration over the enumerated triplets, most significant
first, accumulating words. -/
def int_to_cardinal_go (self : French) : List (ℕ × ℕ) → List String → Except Num2Err (List String)
  | [], words => .ok words
  | (i, triplet) :: rest, words =>
    let hundreds := triplet / 100 % 10
    let tens := triplet / 10 % 10
    let units := triplet % 10
    let chunk1 : List String :=
      if hundreds > 0 then
        (if hundreds ≠ 1 then [UNITS.getD (hundreds - 1) ""] else []) ++ ["cent"]
      else []
    let chunk2 : List String :=
      if tens ≠ 0 ∨ units ≠ 0 then
        let et_string := if units = 1 then (if self.reformed then "-et-" else " et ") else "-"
        let une := fun (w : String) => if i = 0 ∧ units = 1 ∧ self.feminine then "une" else w
        if units = 0 then [TENS.getD (tens - 1) ""]
        else if tens = 0 then
          if i = 0 ∨ units > 1 ∨ hundreds > 0 then [une (UNITS.getD (units - 1) "")] else []
        else if tens = 1 then [TEENS.getD units ""]
        else if tens = 7 then [TENS.getD (tens - 2) "" ++ et_string ++ TEENS.getD units ""]
        else if tens = 8 then [TENS.getD (tens - 1) "" ++ "-" ++ une (UNITS.getD (units - 1) "")]
        else if tens = 9 then [TENS.getD (tens - 2) "" ++ "-" ++ TEENS.getD units ""]
        else [TENS.getD (tens - 1) "" ++ et_string ++ une (UNITS.getD (units - 1) "")]
      else []
    if i ≠ 0 ∧ triplet ≠ 0 then
      if i > MEGAS.length then .error Num2Err.CannotConvert
      else
        let plural_form := if (hundreds = 0 ∧ tens = 0 ∧ units = 1) ∨ i = 1 then "" else "s"
        int_to_cardinal_go self rest (words ++ chunk1 ++ chunk2 ++ [MEGAS.getD (i - 1) "" ++ plural_form])
    else int_to_cardinal_go self rest (words ++ chunk1 ++ chunk2)

/-- Translation of `French::int_to_cardinal` (src/src/lang/fr.rs, lines
126-219); the integral value carried by the BigFloat argument is passed
as an integer. -/
def int_to_cardinal (self : French) (num : ℤ) : Except Num2Err String :=
  if num = 0 then .ok "zéro"
  else
    match int_to_cardinal_go self ((split_thousands num.natAbs).enum.reverse)
        (if num < 0 then ["moins"] else []) with
    | .error e => .error e
    | .ok ws => .ok (String.intercalate (if self.reformed then "-" else " ") ws)

/-- Fuel-bounded digit loop of `French::float_to_cardinal`
(src/src/lang/fr.rs, lines 234-241), with the same fuel and abort
conventions as the English digit loop. -/
def float_digits_go : ℚ → ℕ → Option (List String)
  | op, 0 => if op = 0 then some [] else none
  | op, fuel + 1 =>
    if op = 0 then some []
    else
      let d := qmulInt op 10
      let digit := ratTrunc d
      let op2 := qfrac d
      if digit < 0 then none
      else
        let w := if digit = 0 then "zéro" else UNITS.getD (digit.toNat - 1) ""
        (float_digits_go op2 fuel).map (fun ws => w :: ws)

/-- Translation of `French::float_to_cardinal` (src/src/lang/fr.rs, lines
221-243). -/
def float_to_cardinal (self : French) (num : ℚ) : Option (Except Num2Err String) :=
  let integral_part := ratTrunc num
  let head : Except Num2Err (List String) :=
    if integral_part ≠ 0 then
      match int_to_cardinal self integral_part with
      | .error e => .error e
      | .ok w => .ok [w]
    else .ok []
  match head with
  | .error e => some (.error e)
  | .ok ws =>
    let op := qfrac num
    let ws := if op ≠ 0 then ws ++ ["point"] else ws
    match float_digits_go op op.den with
    | none => none
    | some ds => some (.ok (String.intercalate " " (ws ++ ds)))

/-- Translation of `French::to_cardinal` (src/src/lang/fr.rs, lines
247-257). -/
def to_cardinal (self : French) (num : BigFloat) : Option (Except Num2Err String) :=
  match num with
  | .posInf => some (.ok "infinité")
  | .negInf => some (.ok "moins infinité")
  | .fin q =>
    if qfrac q = 0 then some (int_to_cardinal self q.num)
    else float_to_cardinal self q

/-- Translation of `French::to_currency` (src/src/lang/fr.rs, lines
308-340).  As with the English renderer, the recursive call of the source on
the integral part always lands in the zero-fraction branch and is
unfolded here. -/
def to_currency (self : French) (num : BigFloat) (currency : Currency) :
    Except Num2Err String :=
  match num with
  | .posInf => .ok ("une infinité de " ++ self.currencies currency true)
  | .negInf => .ok ("moins " ++ "une infinité de " ++ self.currencies currency true)
  | .fin q =>
    if qfrac q = 0 then
      (int_to_cardinal self q.num).map
        (fun words => words ++ " " ++ self.currencies currency (decide (q ≠ 1)))
    else
      let integral_part := ratTrunc q
      let cents_nb := Int.tmod (ratTrunc (qmulInt q 100)) 100
      do
        let cents_words ← int_to_cardinal self cents_nb
        let cents_suffix := self.cents currency (decide (cents_nb ≠ 1))
        let integral_word ← (int_to_cardinal self integral_part).map
          (fun words => words ++ " " ++ self.currencies currency (decide (integral_part ≠ 1)))
        if cents_nb = 0 then pure integral_word
        else if integral_part = 0 then pure (cents_words ++ " " ++ cents_suffix)
        else pure (integral_word ++ " et " ++ cents_words ++ " " ++ cents_suffix)

end French

/-- Grammatical case, `Declination` (src/src/lang/uk.rs, lines 11-20). -/
inductive Declination where
  | Nominative
  | Genitive
  | Dative
  | Accusative
  | Instrumental
  | Locative
deriving DecidableEq

/-- Translation of `Declination::index` (src/src/lang/uk.rs, lines 22-34). -/
def Declination.index : Declination → ℕ
  | .Nominative => 0
  | .Genitive => 1
  | .Dative => 2
  | .Accusative => 3
  | .Instrumental => 4
  | .Locative => 5

/-- Grammatical gender, `Gender` (src/src/lang/uk.rs, lines 54-60). -/
inductive Gender where
  | Masculine
  | Feminine
  | Neuter
deriving DecidableEq

/-- Translation of `Gender::index` (src/src/lang/uk.rs, lines 76-85). -/
def Gender.index : Gender → ℕ
  | .Masculine => 0
  | .Feminine => 1
  | .Neuter => 2

/-- Grammatical number, `GrammaticalNumber` (src/src/lang/uk.rs, lines
87-92). -/
inductive GrammaticalNumber where
  | Singular
  | Plural
deriving DecidableEq

/-- Translation of `GrammaticalNumber::index` (src/src/lang/uk.rs, lines
107-115). -/
def GrammaticalNumber.index : GrammaticalNumber → ℕ
  | .Singular => 0
  | .Plural => 1

/-- Renderer state and grammatical profile of the Ukrainian language
module, `Ukrainian` (src/src/lang/uk.rs, lines 117-122). -/
structure Ukrainian where
  gender : Gender
  number : GrammaticalNumber
  declination : Declination
deriving DecidableEq

namespace Ukrainian

/-- Default profile (the Rust `Default` derive): masculine, singular,
nominative. -/
def default : Ukrainian := ⟨.Masculine, .Singular, .Nominative⟩

/-- Translation of `Ukrainian::masculine` (src/src/lang/uk.rs, lines
125-130). -/
def masculine (self : Ukrainian) : Ukrainian := { self with gender := .Masculine }

/-- Translation of `Ukrainian::feminine` (src/src/lang/uk.rs, lines
131-136). -/
def feminine (self : Ukrainian) : Ukrainian := { self with gender := .Feminine }

/-- Translation of `Ukrainian::set_declination` (src/src/lang/uk.rs,
lines 137-142). -/
def set_declination (self : Ukrainian) (declination : Declination) : Ukrainian :=
  { self with declination := declination }

/-- Translation of `Ukrainian::singular` (src/src/lang/uk.rs, lines
143-148). -/
def singular (self : Ukrainian) : Ukrainian := { self with number := .Singular }

/-- Translation of `Ukrainian::plural` (src/src/lang/uk.rs, lines
149-154). -/
def plural (self : Ukrainian) : Ukrainian := { self with number := .Plural }

/-- Translation of `Ukrainian::is_plural` (src/src/lang/uk.rs, lines
155-157). -/
def is_plural (self : Ukrainian) : Bool := self.number = GrammaticalNumber.Plural

/-- Translation of `Ukrainian::agreement_with_units` (src/src/lang/uk.rs,
lines 167-180). -/
def agreement_with_units (self : Ukrainian) (tens units : ℕ) : Ukrainian :=
  if units = 0 ∨ units > 4 ∨ tens = 1 then
    if self.declination = Declination.Nominative then
      (self.plural).set_declination Declination.Genitive
    else self.plural
  else if units = 1 then self.singular
  else self.plural

/-- Model of `BigFloat::to_u64(...).unwrap_or_default()` on a finite
value: the truncating conversion yields no value on a negative or
too-large input, which `unwrap_or_default` turns into 0 (src/src/lang/uk.rs,
line 160: zero and infinity share the same plural properties). -/
def bf_to_u64_or_zero (q : ℚ) : ℕ :=
  if q.num < 0 ∨ 18446744073709551616 * (q.den : ℤ) ≤ q.num then 0
  else (ratTrunc q).toNat

/-- Translation of `Ukrainian::agreement_with_num` (src/src/lang/uk.rs,
lines 159-165) on finite values. -/
def agreement_with_num (self : Ukrainian) (q : ℚ) : Ukrainian :=
  let num := bf_to_u64_or_zero q
  let tail := num % 100
  self.agreement_with_units (tail / 10) (tail % 10)

/-- Constant `MINUS` (src/src/lang/uk.rs, line 183). -/
def MINUS : String := "мінус"

/-- Table `INFINITY` (src/src/lang/uk.rs, lines 185-192). -/
def INFINITY : List String :=
  ["нескінченність", "нескінченності", "нескінченності", "нескінченність",
   "нескінченністю", "нескінченності"]

/-- Table `ZERO` (src/src/lang/uk.rs, line 194). -/
def ZERO : List String := ["нуль", "нуля", "нулю", "нуль", "нулем", "нулі"]

/-- Constant `ORDINAL_ZERO_BASE` (src/src/lang/uk.rs, line 196). -/
def ORDINAL_ZERO_BASE : String := "нульов"

/-- Table `GENDERED` (src/src/lang/uk.rs, lines 198-208): the words for
one and two, by gender and case. -/
def GENDERED : List (List (List String)) :=
  [[["один", "одного", "одному", "один", "одним", "одному"],
    ["одна", "одної", "одній", "одну", "одною", "одній"],
    ["одне", "одного", "одному", "одне", "одним", "одному"]],
   [["два", "двох", "двом", "два", "двома", "двох"],
    ["дві", "двох", "двом", "дві", "двома", "двох"],
    ["два", "двох", "двом", "два", "двома", "двох"]]]

/-- Constant `ONE_BASE` (src/src/lang/uk.rs, line 210). -/
def ONE_BASE : String := "одно"

/-- Table `UNITS` (src/src/lang/uk.rs, lines 212-221): the words for
three through nine, by case. -/
def UNITS : List (List String) :=
  [["три", "трьох", "трьом", "три", "трьома", "трьох"],
   ["чотири", "чотирьох", "чотирьом", "чотири", "чотирма", "чотирьох"],
   ["пʼять", "пʼяти", "пʼяти", "пʼять", "пʼятьма", "пʼяти"],
   ["шість", "шести", "шісти", "шість", "шістьма", "шести"],
   ["сім", "семи", "семи", "сім", "сімома", "семи"],
   ["вісім", "восьми", "восьми", "вісім", "вісьма", "восьми"],
   ["девʼять", "девʼяти", "девʼяти", "девʼять", "девʼятьма", "девʼяти"]]

/-- Table `ORDINAL_UNIT_BASES` (src/src/lang/uk.rs, lines 223-233). -/
def ORDINAL_UNIT_BASES : List String :=
  ["перш", "друг", "трет", "четверт", "пʼят", "шост", "сьом", "восьм", "девʼят"]

/-- Table `TEENS_BASES` (src/src/lang/uk.rs, lines 235-246). -/
def TEENS_BASES : List String :=
  ["десят", "одинадцят", "дванадцят", "тринадцят", "чотирнадцят",
   "пʼятнадцят", "шістнадцят", "сімнадцят", "вісімнадцят", "девʼятнадцят"]

/-- Table `TEENS_FLEXIONS` (src/src/lang/uk.rs, line 248). -/
def TEENS_FLEXIONS : List String := ["ь", "и", "и", "ь", "ьма", "и"]

/-- Table `TENS` (src/src/lang/uk.rs, lines 250-260): twenty through
ninety, by case. -/
def TENS : List (List String) :=
  [["двадцять", "двадцяти", "двадцяти", "двадцять", "двадцятьма", "двадцяти"],
   ["тридцять", "тридцяти", "тридцяти", "тридцять", "тридцятьма", "тридцяти"],
   ["сорок", "сорока", "сорока", "сорок", "сорока", "сорока"],
   ["пʼятдесят", "пʼятдесяти", "пʼятдесяти", "пʼятдесят", "пʼятдесятьма", "пʼятдесяти"],
   ["шістдесят", "шістдесяти", "шістдесяти", "шістдесят", "шістдесятьма", "шістдесяти"],
   ["сімдесят", "сімдесяти", "сімдесяти", "сімдесят", "сімдесятьма", "сімдесяти"],
   ["вісімдесят", "вісімдесяти", "вісімдесяти", "вісімдесят", "вісімдесятьма", "вісімдесяти"],
   ["девʼяносто", "девʼяноста", "девʼяноста", "девʼяносто", "девʼяноста", "девʼяноста"]]

/-- Table `ORDINAL_TENS_BASES` (src/src/lang/uk.rs, lines 262-272). -/
def ORDINAL_TENS_BASES : List String :=
  ["десят", "двадцят", "тридцят", "сороков", "пʼятдесят", "шістдесят",
   "сімдесят", "вісімдесят", "девʼяност"]

/-- Table `HUNDREDS` (src/src/lang/uk.rs, lines 274-285). -/
def HUNDREDS : List (List String) :=
  [["сто", "ста", "ста", "сто", "ста", "ста"],
   ["двісті", "двохсот", "двомстам", "двісті", "двомастами", "двохстах"],
   ["триста", "трьохсот", "трьомстам", "триста", "трьомастами", "трьохстах"],
   ["чотириста", "чотирьохсот", "чотирьомстам", "чотириста", "чотирмастами", "чотирьохстах"],
   ["пʼятсот", "пʼятисот", "пʼятистам", "пʼятсот", "пʼятьмастами", "пʼятистах"],
   ["шістсот", "шестисот", "шестистам", "шістсот", "шістьмастами", "шестистах"],
   ["сімсот", "семисот", "семистам", "сімсот", "сімомастами", "семистах"],
   ["вісімсот", "восьмисот", "восьмистам", "вісімсот", "восьмистами", "восьмистах"],
   ["девʼятсот", "девʼятисот", "девʼятистам", "девʼятсот", "девʼятьмастами", "девʼятистах"]]

/-- Constant `HUNDRED_BASE` (src/src/lang/uk.rs, line 287). -/
def HUNDRED_BASE : String := "сот"

/-- Table `THOUSAND_FLEXIONS` (src/src/lang/uk.rs, lines 289-293). -/
def THOUSAND_FLEXIONS : List (List String) :=
  [["а", "і", "і", "у", "ею", "і"],
   ["і", "", "ам", "і", "ами", "ах"]]

/-- Table `MEGA_BASES` (src/src/lang/uk.rs, lines 295-318). -/
def MEGA_BASES : List String :=
  ["тисяч", "мільйон", "мільярд", "трильйон", "квадрильйон", "квінтильйон",
   "секстильйон", "септильйон", "октильйон", "нонильйон", "децильйон",
   "ундецильйон", "додецильйон", "тредецильйон", "кваттуордецильйон",
   "квіндецильйон", "седецильйон", "септдецильйон", "дуодевігінтильйон",
   "ундевігінтильйон", "вігінтильйон"]

/-- Table `MEGA_FLEXIONS` (src/src/lang/uk.rs, lines 320-324). -/
def MEGA_FLEXIONS : List (List String) :=
  [["", "а", "у", "", "ом", "і"],
   ["и", "ів", "ам", "и", "ами", "и"]]

/-- Table `ADJECTIVE_HARD_FLEXIONS_SINGULAR` (src/src/lang/uk.rs, lines
326-331). -/
def ADJECTIVE_HARD_FLEXIONS_SINGULAR : List (List String) :=
  [["ий", "ого", "ому", "ий", "им", "ому"],
   ["а", "ої", "ій", "у", "ою", "ій"],
   ["е", "ого", "ому", "е", "им", "ому"]]

/-- Table `ADJECTIVE_HARD_FLEXIONS_PLURAL` (src/src/lang/uk.rs, line 333). -/
def ADJECTIVE_HARD_FLEXIONS_PLURAL : List String := ["і", "их", "им", "их", "ими", "их"]

/-- Table `ADJECTIVE_SOFT_FLEXIONS_SINGULAR` (src/src/lang/uk.rs, lines
335-340). -/
def ADJECTIVE_SOFT_FLEXIONS_SINGULAR : List (List String) :=
  [["ій", "ього", "ьому", "ій", "ім", "ьому"],
   ["я", "ьої", "ій", "ю", "ьою", "ій"],
   ["є", "ього", "ьому", "є", "ім", "ьому"]]

/-- Table `ADJECTIVE_SOFT_FLEXIONS_PLURAL` (src/src/lang/uk.rs, line 342). -/
def ADJECTIVE_SOFT_FLEXIONS_PLURAL : List String := ["і", "іх", "ім", "іх", "іми", "іх"]

/-- Fuel-bounded body of the value-level idealization of the while loop
of `Ukrainian::split_thousands` (src/src/lang/uk.rs, lines 665-675),
identical to the English one; see `English.split_thousands_go` for how
the idealization relates to the floating division of the source. -/
def split_thousands_go : ℕ → ℕ → List ℕ
  | 0, _ => []
  | fuel + 1, num => if num = 0 then [] else num % 1000 :: split_thousands_go fuel (num / 1000)

/-- Value-level idealization of `Ukrainian::split_thousands` on the
non-negative integral magnitudes it is applied to, without the trailing
zero padding of the source loop; `split_thousands_bf` is the faithful
form. -/
def split_thousands (num : ℕ) : List ℕ := split_thousands_go num num

/-- `Ukrainian::split_thousands` (src/src/lang/uk.rs, lines 665-675) as
the source executes it on the supplied numeric type: the faithful loop
`split_thousands_bf_go` started at the non-negative integral magnitude. -/
def split_thousands_bf (uflow : ℚ) (num : ℕ) (fuel : ℕ) : Option (List ℕ) :=
  split_thousands_bf_go uflow (num : ℚ) fuel

/-- Loop body of `Ukrainian::int_to_cardinal` (src/src/lang/uk.rs, lines
691-740): iteration over the enumerated triplets, most significant
first, accumulating words. -/
def int_to_cardinal_go (self : Ukrainian) : List (ℕ × ℕ) → List String → Except Num2Err (List String)
  | [], words => .ok words
  | (order, triplet) :: rest, words =>
    let hundreds := triplet / 100 % 10
    let tens := triplet / 10 % 10
    let units := triplet % 10
    let chunk1 : List String :=
      if hundreds > 0 then [(HUNDREDS.getD (hundreds - 1) []).getD self.declination.index ""]
      else []
    let properties :=
      (match order with
       | 0 => self
       | 1 => self.feminine
       | _ => self.masculine).agreement_with_units tens units
    let chunk2 : List String :=
      if tens = 1 then
        [TEENS_BASES.getD units "" ++ TEENS_FLEXIONS.getD self.declination.index ""]
      else
        (if tens > 1 then [(TENS.getD (tens - 2) []).getD self.declination.index ""] else []) ++
        (if units = 1 ∨ units = 2 then
          let props := if order = 0 then self else properties
          [((GENDERED.getD (units - 1) []).getD props.gender.index []).getD props.declination.index ""]
         else if units > 0 then [(UNITS.getD (units - 3) []).getD self.declination.index ""]
         else [])
    if order ≠ 0 ∧ triplet ≠ 0 then
      if order > MEGA_BASES.length then .error Num2Err.CannotConvert
      else
        let mega_flexion :=
          if order = 1 then
            (THOUSAND_FLEXIONS.getD properties.number.index []).getD properties.declination.index ""
          else
            (MEGA_FLEXIONS.getD properties.number.index []).getD properties.declination.index ""
        int_to_cardinal_go self rest
          (words ++ chunk1 ++ chunk2 ++ [MEGA_BASES.getD (order - 1) "" ++ mega_flexion])
    else int_to_cardinal_go self rest (words ++ chunk1 ++ chunk2)

/-- Translation of `Ukrainian::int_to_cardinal` (src/src/lang/uk.rs,
lines 677-743); the integral value carried by the BigFloat argument is
passed as an integer. -/
def int_to_cardinal (self : Ukrainian) (num : ℤ) : Except Num2Err String :=
  if num = 0 then .ok (ZERO.getD self.declination.index "")
  else
    match int_to_cardinal_go self ((split_thousands num.natAbs).enum.reverse)
        (if num < 0 then [MINUS] else []) with
    | .error e => .error e
    | .ok ws => .ok (String.intercalate " " ws)

/-- Translation of `Ukrainian::ordinal_flexion` (src/src/lang/uk.rs,
lines 776-786); all callers pass a non-negative value, for which the
`(num % 100).to_u64().unwrap()` conversion is the truncated remainder. -/
def ordinal_flexion (self : Ukrainian) (num : ℤ) : String :=
  let tail := (Int.tmod num 100).toNat
  let is_soft := decide (tail % 10 = 3 ∧ tail ≠ 13)
  let f :=
    match self.is_plural, is_soft with
    | true, true => ADJECTIVE_SOFT_FLEXIONS_PLURAL
    | true, false => ADJECTIVE_HARD_FLEXIONS_PLURAL
    | false, true => ADJECTIVE_SOFT_FLEXIONS_SINGULAR.getD self.gender.index []
    | false, false => ADJECTIVE_HARD_FLEXIONS_SINGULAR.getD self.gender.index []
  f.getD self.declination.index ""

/-- Loop body of `Ukrainian::to_ordinal` (src/src/lang/uk.rs, lines
844-947): iteration over the enumerated triplets, most significant
first; the triplet at index `last_non_empty` is the least-significant
nonzero one, after whose fused ordinal word the source loop breaks. -/
def to_ordinal_go (self : Ukrainian) (flexion : String) (last_non_empty : ℕ) :
    List (ℕ × ℕ) → List String → List String
  | [], words => words
  | (order, triplet) :: rest, words =>
    let hundreds := triplet / 100 % 10
    let tens := triplet / 10 % 10
    let units := triplet % 10
    if order = last_non_empty then
      if order ≠ 0 then
        let w1 :=
          if hundreds > 0 then (HUNDREDS.getD (hundreds - 1) []).getD Declination.Genitive.index ""
          else ""
        let w2 :=
          if tens = 1 then
            TEENS_BASES.getD units "" ++ TEENS_FLEXIONS.getD Declination.Genitive.index ""
          else
            (if tens > 1 then (TENS.getD (tens - 2) []).getD Declination.Genitive.index "" else "") ++
            (if units = 1 then ONE_BASE
             else if units = 2 then
               ((GENDERED.getD 1 []).getD Gender.Masculine.index []).getD Declination.Genitive.index ""
             else if 3 ≤ units ∧ units ≤ 9 then
               (UNITS.getD (units - 3) []).getD Declination.Genitive.index ""
             else "")
        words ++ [w1 ++ w2 ++ MEGA_BASES.getD (order - 1) "" ++ "н" ++ flexion]
      else if tens = 0 ∧ units = 0 then
        words ++ [HUNDRED_BASE ++ flexion]
      else
        let c1 : List String :=
          if hundreds > 0 then
            [(HUNDREDS.getD (hundreds - 1) []).getD Declination.Nominative.index ""]
          else []
        if tens = 1 then words ++ c1 ++ [TEENS_BASES.getD units "" ++ flexion]
        else if units = 0 then words ++ c1 ++ [ORDINAL_TENS_BASES.getD (tens - 1) "" ++ flexion]
        else
          let c2 : List String :=
            if tens > 1 then [(TENS.getD (tens - 2) []).getD Declination.Nominative.index ""]
            else []
          let uflexion := self.ordinal_flexion (units : ℤ)
          words ++ c1 ++ c2 ++ [ORDINAL_UNIT_BASES.getD (units - 1) "" ++ uflexion]
    else
      let c1 : List String :=
        if hundreds > 0 then
          [(HUNDREDS.getD (hundreds - 1) []).getD Declination.Nominative.index ""]
        else []
      let properties :=
        (match order with
         | 1 => Ukrainian.default.feminine
         | _ => Ukrainian.default).agreement_with_units tens units
      let c2 : List String :=
        if tens = 1 then
          [TEENS_BASES.getD units "" ++ TEENS_FLEXIONS.getD Declination.Nominative.index ""]
        else
          (if tens > 1 then [(TENS.getD (tens - 2) []).getD Declination.Nominative.index ""] else []) ++
          (if units = 1 ∨ units = 2 then
            [((GENDERED.getD (units - 1) []).getD properties.gender.index []).getD
              Declination.Nominative.index ""]
           else if units > 0 then [(UNITS.getD (units - 3) []).getD Declination.Nominative.index ""]
           else [])
      let c3 : List String :=
        if order ≠ 0 ∧ triplet ≠ 0 then
          let mega_flexion :=
            if order = 1 then
              (THOUSAND_FLEXIONS.getD properties.number.index []).getD properties.declination.index ""
            else
              (MEGA_FLEXIONS.getD properties.number.index []).getD properties.declination.index ""
          [MEGA_BASES.getD (order - 1) "" ++ mega_flexion]
        else []
      to_ordinal_go self flexion last_non_empty rest (words ++ c1 ++ c2 ++ c3)

/-- Translation of `Ukrainian::to_ordinal` (src/src/lang/uk.rs, lines
817-950) on the integral values it is applied to (the dispatch boundary
rejects non-integral ordinal requests, and the internal callers pass
integral numerators and denominators). -/
def to_ordinal (self : Ukrainian) (num : ℤ) : Except Num2Err String :=
  let flexion := self.ordinal_flexion num
  if num = 0 then .ok (ORDINAL_ZERO_BASE ++ flexion)
  else
    let words : List String := if num < 0 then [MINUS] else []
    let triplets := split_thousands num.natAbs
    let last_non_empty := triplets.findIdx (fun t => t != 0)
    if last_non_empty > 0 ∧ triplets.getD last_non_empty 0 = 1 ∧
        (∀ t ∈ triplets.drop (last_non_empty + 1), t = 0) then
      .ok (MEGA_BASES.getD (last_non_empty - 1) "" ++ "н" ++ flexion)
    else
      .ok (String.intercalate " "
        (to_ordinal_go self flexion last_non_empty (triplets.enum.reverse) words))

/-- Fuel-bounded scaling loop of `Ukrainian::float_to_cardinal`
(src/src/lang/uk.rs, lines 752-756): multiply numerator and denominator
by ten until the numerator is integral.  Fuel bounds the iteration count
of the while loop of the source; `none` models a run that does not terminate
within the fuel, impossible for values of the supplied numeric type
(finite decimal expansion), for which the denominator of the numerator is
always enough fuel. -/
def scale_go : ℚ → ℚ → ℕ → Option (ℚ × ℚ)
  | nmr, dnm, 0 => if qfrac nmr = 0 then some (nmr, dnm) else none
  | nmr, dnm, fuel + 1 =>
    if qfrac nmr = 0 then some (nmr, dnm)
    else scale_go (qmulInt nmr 10) (qmulInt dnm 10) fuel

/-- Translation of `Ukrainian::float_to_cardinal` (src/src/lang/uk.rs,
lines 745-774). -/
def float_to_cardinal (self : Ukrainian) (num : ℚ) : Option (Except Num2Err String) :=
  let whole := ratTrunc num
  let numerator0 := qabs (qfrac num)
  if numerator0 = 0 then some (int_to_cardinal self whole)
  else
    match scale_go numerator0 1 numerator0.den with
    | none => none
    | some (numerator, denominator) =>
      let whole_properties := self.agreement_with_num ((whole : ℚ))
      let whole_flexion :=
        (if whole_properties.number = GrammaticalNumber.Plural then
          ADJECTIVE_HARD_FLEXIONS_PLURAL
         else ADJECTIVE_HARD_FLEXIONS_SINGULAR.getD Gender.Feminine.index []).getD
          whole_properties.declination.index ""
      let whole_lang := whole_properties.feminine
      let numerator_properties := self.agreement_with_num numerator
      let numerator_lang := numerator_properties.feminine
      match int_to_cardinal whole_lang whole with
      | .error e => some (.error e)
      | .ok w1 =>
        match int_to_cardinal numerator_lang (ratTrunc numerator) with
        | .error e => some (.error e)
        | .ok w2 =>
          match to_ordinal numerator_lang (ratTrunc denominator) with
          | .error e => some (.error e)
          | .ok w3 => some (.ok (w1 ++ " ціл" ++ whole_flexion ++ " " ++ w2 ++ " " ++ w3))

/-- Translation of `Ukrainian::to_cardinal` (src/src/lang/uk.rs, lines
805-815). -/
def to_cardinal (self : Ukrainian) (num : BigFloat) : Option (Except Num2Err String) :=
  match num with
  | .posInf => some (.ok (INFINITY.getD self.declination.index ""))
  | .negInf => some (.ok (MINUS ++ " " ++ INFINITY.getD self.declination.index ""))
  | .fin q =>
    if qfrac q = 0 then some (int_to_cardinal self q.num)
    else float_to_cardinal self q

end Ukrainian

/-- Output kind selector, `Output` (src/src/output.rs, lines 4-15). -/
inductive Output where
  | Cardinal
  | Currency
  | Ordinal
  | OrdinalNum
  | Year
deriving DecidableEq

/-- Capability interface of a language renderer, the trait `Language`
(src/src/lang/lang.rs, lines 8-14).  The dispatch layer is verified
against an arbitrary implementation of this interface, so its properties
hold for every language and every preference set. -/
structure LangRenderer where
  to_cardinal : BigFloat → Except Num2Err String
  to_ordinal : BigFloat → Except Num2Err String
  to_ordinal_num : BigFloat → Except Num2Err String
  to_year : BigFloat → Except Num2Err String
  to_currency : BigFloat → Currency → Except Num2Err String

/-- Translation of `Num2Words::to_words` (src/src/num2words.rs, lines
274-313): the eager domain checks at the dispatch boundary, then the
call into the resolved language renderer. -/
def to_words (lang : LangRenderer) (output : Output) (num : BigFloat)
    (currency : Currency) : Except Num2Err String :=
  match output with
  | .Cardinal => lang.to_cardinal num
  | .Currency => lang.to_currency num currency
  | .Ordinal =>
    if num.isInf then .error Num2Err.InfiniteOrdinal
    else if ¬ num.frac.isZero then .error Num2Err.FloatingOrdinal
    else if num.isNegative then .error Num2Err.NegativeOrdinal
    else lang.to_ordinal num
  | .OrdinalNum =>
    if num.isInf then .error Num2Err.InfiniteOrdinal
    else if ¬ num.frac.isZero then .error Num2Err.FloatingOrdinal
    else if num.isNegative then .error Num2Err.NegativeOrdinal
    else lang.to_ordinal_num num
  | .Year =>
    if num.isInf then .error Num2Err.InfiniteYear
    else if ¬ num.frac.isZero then .error Num2Err.FloatingYear
    else lang.to_year num

/-- Suffix rule as the specification states it for the English numbered
ordinal: a function of N mod 100 only, with 11, 12 and 13 taking "th" and
the last digit otherwise selecting "st", "nd", "rd" or "th". -/
def ordinal_num_suffix_spec (m : ℕ) : String :=
  if m = 11 ∨ m = 12 ∨ m = 13 then "th"
  else if m % 10 = 1 then "st"
  else if m % 10 = 2 then "nd"
  else if m % 10 = 3 then "rd"
  else "th"

/-- Subunit count as the to_currency code computes it: truncation toward
zero of the amount times 100, then the truncated remainder mod 100
(src/src/lang/en.rs line 318, src/src/lang/fr.rs line 324). -/
def trunc_cents (q : ℚ) : ℤ := Int.tmod (ratTrunc (qmulInt q 100)) 100

/-- Subunit count as the specification describes it: round-half-up of the
amount times 100, then mod 100.  The floor of x·100 + 1/2 is written on
the integer normal form (200·num + den) divided by (2·den) with floor
division. -/
def round_half_up_cents (q : ℚ) : ℤ :=
  Int.tmod (Int.fdiv (200 * q.num + (q.den : ℤ)) (2 * (q.den : ℤ))) 100

theorem en_split_go_zero (fuel : ℕ) : English.split_thousands_go fuel 0 = [] := by
  cases fuel <;> simp [English.split_thousands_go]

theorem en_split_go_fuel {f₁ f₂ n : ℕ} (h1 : n ≤ f₁) (h2 : n ≤ f₂) :
    English.split_thousands_go f₁ n = English.split_thousands_go f₂ n := by
  induction f₁ generalizing f₂ n with
  | zero =>
    have : n = 0 := by omega
    subst this
    rw [en_split_go_zero, en_split_go_zero]
  | succ f ih =>
    by_cases hn : n = 0
    · subst hn; rw [en_split_go_zero, en_split_go_zero]
    · obtain ⟨g, rfl⟩ : ∃ g, f₂ = g + 1 := ⟨f₂ - 1, by omega⟩
      simp only [English.split_thousands_go, hn, if_false]
      have hd : n / 1000 < n := Nat.div_lt_self (by omega) (by norm_num)
      exact congrArg _ (ih (by omega) (by omega))

theorem en_split_eq (n : ℕ) :
    English.split_thousands n =
      if n = 0 then [] else n % 1000 :: English.split_thousands (n / 1000) := by
  by_cases hn : n = 0
  · simp [hn, English.split_thousands, en_split_go_zero]
  · obtain ⟨m, rfl⟩ : ∃ m, n = m + 1 := ⟨n - 1, by omega⟩
    simp only [English.split_thousands, English.split_thousands_go, hn, if_false]
    have hd : (m + 1) / 1000 < m + 1 := Nat.div_lt_self (by omega) (by norm_num)
    exact congrArg _ (en_split_go_fuel (by omega) le_rfl)

theorem uk_split_go_eq_en (fuel n : ℕ) :
    Ukrainian.split_thousands_go fuel n = English.split_thousands_go fuel n := by
  induction fuel generalizing n with
  | zero => rfl
  | succ f ih =>
    simp only [Ukrainian.split_thousands_go, English.split_thousands_go]
    by_cases hn : n = 0 <;> simp [hn, ih]

theorem uk_split_eq_en (n : ℕ) : Ukrainian.split_thousands n = English.split_thousands n :=
  uk_split_go_eq_en n n

theorem fr_split_go_eq_en (fuel n : ℕ) :
    French.split_thousands_go fuel n = English.split_thousands_go fuel n := by
  induction fuel generalizing n with
  | zero => rfl
  | succ f ih =>
    simp only [French.split_thousands_go, English.split_thousands_go]
    by_cases hn : n = 0 <;> simp [hn, ih]

theorem fr_split_eq_en (n : ℕ) : French.split_thousands n = English.split_thousands n :=
  fr_split_go_eq_en n n

theorem en_split_foldr (n : ℕ) :
    (English.split_thousands n).foldr (fun t acc => t + 1000 * acc) 0 = n := by
  induction n using Nat.strong_induction_on with
  | _ n ih =>
    rw [en_split_eq]
    by_cases hn : n = 0
    · simp [hn]
    · simp only [hn, if_false, List.foldr_cons]
      rw [ih (n / 1000) (Nat.div_lt_self (by omega) (by norm_num))]
      omega

theorem en_split_lt (n : ℕ) : ∀ t ∈ English.split_thousands n, t < 1000 := by
  induction n using Nat.strong_induction_on with
  | _ n ih =>
    rw [en_split_eq]
    by_cases hn : n = 0
    · simp [hn]
    · simp only [hn, if_false, List.mem_cons]
      rintro t (rfl | ht)
      · exact Nat.mod_lt _ (by norm_num)
      · exact ih (n / 1000) (Nat.div_lt_self (by omega) (by norm_num)) t ht

theorem en_split_getD (n : ℕ) : ∀ i, (English.split_thousands n).getD i 0 = n / 1000 ^ i % 1000 := by
  induction n using Nat.strong_induction_on with
  | _ n ih =>
    intro i
    rw [en_split_eq]
    by_cases hn : n = 0
    · simp [hn]
    · cases i with
      | zero => simp [hn]
      | succ j =>
        simp only [hn, if_false, List.getD_cons_succ]
        rw [ih (n / 1000) (Nat.div_lt_self (by omega) (by norm_num)) j]
        rw [Nat.div_div_eq_div_mul]
        ring_nf

theorem en_split_length_upper (n : ℕ) : n < 1000 ^ (English.split_thousands n).length := by
  induction n using Nat.strong_induction_on with
  | _ n ih =>
    rw [en_split_eq]
    by_cases hn : n = 0
    · simp [hn]
    · simp only [hn, if_false, List.length_cons, pow_succ]
      have := ih (n / 1000) (Nat.div_lt_self (by omega) (by norm_num))
      have h2 : n / 1000 + 1 ≤ 1000 ^ (English.split_thousands (n / 1000)).length := this
      calc n < 1000 * (n / 1000 + 1) := by omega
        _ ≤ 1000 * 1000 ^ (English.split_thousands (n / 1000)).length := by
              exact Nat.mul_le_mul_left _ this
        _ = 1000 ^ (English.split_thousands (n / 1000)).length * 1000 := by ring

theorem en_split_length_lower (n : ℕ) (h : English.split_thousands n ≠ []) :
    1000 ^ ((English.split_thousands n).length - 1) ≤ n := by
  induction n using Nat.strong_induction_on with
  | _ n ih =>
    rw [en_split_eq] at h ⊢
    by_cases hn : n = 0
    · simp [hn] at h
    · simp only [hn, if_false, List.length_cons]
      by_cases hq : n / 1000 = 0
      · simp [hq, en_split_eq]
        omega
      · have hne : English.split_thousands (n / 1000) ≠ [] := by
          rw [en_split_eq]; simp [hq]
        have := ih (n / 1000) (Nat.div_lt_self (by omega) (by norm_num)) hne
        have hlen : (English.split_thousands (n / 1000)).length ≠ 0 := by
          intro hc; rw [List.length_eq_zero] at hc; exact hne hc
        obtain ⟨k, hk⟩ : ∃ k, (English.split_thousands (n / 1000)).length = k + 1 :=
          ⟨(English.split_thousands (n / 1000)).length - 1, by omega⟩
        rw [hk] at this ⊢
        simp only [Nat.add_sub_cancel] at this ⊢
        rw [pow_succ]
        have h3 : 1000 ^ k * 1000 ≤ n / 1000 * 1000 := Nat.mul_le_mul_right _ this
        have h4 : n / 1000 * 1000 ≤ n := Nat.div_mul_le_self n 1000
        omega

theorem en_split_nil_iff (n : ℕ) : English.split_thousands n = [] ↔ n = 0 := by
  rw [en_split_eq]
  by_cases hn : n = 0 <;> simp [hn]

theorem en_split_concat (n : ℕ) (h : n ≠ 0) :
    ∃ ys t, English.split_thousands n = ys ++ [t] ∧ t ≠ 0 := by
  induction n using Nat.strong_induction_on with
  | _ n ih =>
    rw [en_split_eq]
    by_cases hq : n / 1000 = 0
    · refine ⟨[], n % 1000, ?_, ?_⟩
      · simp [h, hq, en_split_eq]
      · have : n < 1000 := by omega
        omega
    · obtain ⟨ys, t, hsp, ht⟩ := ih (n / 1000) (Nat.div_lt_self (by omega) (by norm_num)) hq
      exact ⟨n % 1000 :: ys, t, by simp [h, hsp], ht⟩

theorem enum_reverse_concat (xs : List ℕ) (x : ℕ) :
    (xs ++ [x]).enum.reverse = (xs.length, x) :: xs.enum.reverse := by
  have h1 : (xs ++ [x]).enum = xs.enum ++ [(xs.length, x)] := by
    rw [List.enum_eq_zip_range, List.enum_eq_zip_range, List.length_append]
    simp only [List.length_singleton]
    rw [List.range_succ, List.zip_append (by simp)]
    simp
  rw [h1, List.reverse_append]
  simp

theorem ratTrunc_floor (q : ℚ) (h : 0 ≤ q) : ratTrunc q = ⌊q⌋ := by
  have hn : 0 ≤ q.num := Rat.num_nonneg.mpr h
  obtain ⟨A, hA⟩ : ∃ A : ℕ, q.num = (A : ℤ) := ⟨q.num.toNat, (Int.toNat_of_nonneg hn).symm⟩
  conv_rhs => rw [← Rat.num_div_den q, hA]
  rw [Rat.floor_intCast_div_natCast, ratTrunc, hA]
  rfl

theorem floor_toNat_div (q : ℚ) (h : 0 ≤ q) : ⌊q⌋ = ((q.num.toNat / q.den : ℕ) : ℤ) := by
  have hn : 0 ≤ q.num := Rat.num_nonneg.mpr h
  rw [← ratTrunc_floor q h, ratTrunc, ← Int.toNat_of_nonneg hn]
  rfl

theorem bf_div_1000_val (q : ℚ) : bf_div_1000 q = q / 1000 := by
  rw [bf_div_1000, Rat.mkRat_eq_div]
  push_cast
  rw [div_mul_eq_div_div, Rat.num_div_den]

theorem bf_div_1000_nonneg (q : ℚ) (h : 0 ≤ q) : 0 ≤ bf_div_1000 q := by
  rw [bf_div_1000_val]; positivity

theorem bf_mod_1000_val (q : ℚ) :
    bf_mod_1000 q = q - 1000 * ((Int.tdiv q.num ((q.den : ℤ) * 1000) : ℤ) : ℚ) := by
  have hden : (q.den : ℚ) ≠ 0 := Nat.cast_ne_zero.mpr q.den_nz
  have hq : q * (q.den : ℚ) = (q.num : ℚ) := by
    nth_rewrite 1 [← Rat.num_div_den q]
    rw [div_mul_cancel₀ _ hden]
  rw [bf_mod_1000, Rat.mkRat_eq_div]
  push_cast
  rw [← hq, ← sub_mul]
  exact mul_div_cancel_right₀ _ hden

theorem bf_tdiv_eq (q : ℚ) (h : 0 ≤ q) :
    Int.tdiv q.num ((q.den : ℤ) * 1000) = ((q.num.toNat / q.den / 1000 : ℕ) : ℤ) := by
  have hn : 0 ≤ q.num := Rat.num_nonneg.mpr h
  rw [← Int.toNat_of_nonneg hn,
      show ((q.den : ℤ) * 1000) = ((q.den * 1000 : ℕ) : ℤ) by push_cast; ring,
      Nat.div_div_eq_div_mul]
  rfl

theorem bf_mod_1000_trunc (q : ℚ) (h : 0 ≤ q) :
    ratTrunc (bf_mod_1000 q) = ((⌊q⌋.toNat % 1000 : ℕ) : ℤ) := by
  have hfl : ⌊q⌋ = ((q.num.toNat / q.den : ℕ) : ℤ) := floor_toNat_div q h
  have hT : Int.tdiv q.num ((q.den : ℤ) * 1000) =
      ((q.num.toNat / q.den / 1000 : ℕ) : ℤ) := bf_tdiv_eq q h
  have hval : bf_mod_1000 q =
      q - ((1000 * ((q.num.toNat / q.den / 1000 : ℕ) : ℤ) : ℤ) : ℚ) := by
    rw [bf_mod_1000_val, hT]; push_cast; ring
  have hle : 1000 * (q.num.toNat / q.den / 1000) ≤ q.num.toNat / q.den := by
    have := Nat.div_mul_le_self (q.num.toNat / q.den) 1000
    omega
  have hnn : 0 ≤ bf_mod_1000 q := by
    rw [hval]
    have h1 : ((1000 * ((q.num.toNat / q.den / 1000 : ℕ) : ℤ) : ℤ) : ℚ) ≤
        (((q.num.toNat / q.den : ℕ) : ℤ) : ℚ) := by
      push_cast
      exact_mod_cast hle
    have h2 : (((q.num.toNat / q.den : ℕ) : ℤ) : ℚ) ≤ q := by
      rw [← hfl]
      exact Int.floor_le q
    linarith
  rw [ratTrunc_floor _ hnn, hval, Int.floor_sub_int, hfl]
  push_cast
  omega

theorem bf_div_1000_floor (q : ℚ) (h : 0 ≤ q) :
    ⌊bf_div_1000 q⌋ = ((⌊q⌋.toNat / 1000 : ℕ) : ℤ) := by
  have hn : 0 ≤ q.num := Rat.num_nonneg.mpr h
  have htn : ⌊q⌋.toNat = q.num.toNat / q.den := by
    rw [floor_toNat_div q h, Int.toNat_natCast]
  rw [htn, bf_div_1000, Rat.mkRat_eq_div, ← Int.toNat_of_nonneg hn,
      Rat.floor_intCast_div_natCast, Nat.div_div_eq_div_mul]
  rfl

theorem flush_small (q uflow : ℚ) (hu1 : uflow ≤ 1) (hf : bf_div_1000 q < uflow) :
    ⌊q⌋.toNat < 1000 := by
  rw [bf_div_1000_val] at hf
  have hq : q < 1000 := by
    have h2 : q / 1000 < 1 := lt_of_lt_of_le hf hu1
    have h3 := (div_lt_iff₀ (show (0:ℚ) < 1000 by norm_num)).mp h2
    linarith
  have h4 : ⌊q⌋ < (1000 : ℤ) := Int.floor_lt.mpr (by exact_mod_cast hq)
  omega

theorem bf_go_zero (uflow : ℚ) (fuel : ℕ) : split_thousands_bf_go uflow 0 fuel = some [] := by
  cases fuel <;> simp [split_thousands_bf_go]

theorem bf_go_succ (uflow q : ℚ) (fuel : ℕ) (h0 : q ≠ 0) :
    split_thousands_bf_go uflow q (fuel + 1) =
      (split_thousands_bf_go uflow
          (if bf_div_1000 q < uflow then 0 else bf_div_1000 q) fuel).map
        (fun l => (ratTrunc (bf_mod_1000 q)).toNat :: l) := by
  rw [split_thousands_bf_go, if_neg h0]

theorem bf_go_padded (uflow : ℚ) (hu1 : uflow ≤ 1) :
    ∀ (fuel : ℕ) (q : ℚ), 0 ≤ q → ∀ l, split_thousands_bf_go uflow q fuel = some l →
      ∃ m, l = English.split_thousands ⌊q⌋.toNat ++ List.replicate m 0 := by
  intro fuel
  induction fuel with
  | zero =>
    intro q hq l hl
    simp only [split_thousands_bf_go] at hl
    by_cases h0 : q = 0
    · rw [if_pos h0] at hl
      refine ⟨0, ?_⟩
      subst h0
      rw [← Option.some_inj.mp hl, Int.floor_zero]
      rfl
    · rw [if_neg h0] at hl
      cases hl
  | succ fuel ih =>
    intro q hq l hl
    by_cases h0 : q = 0
    · simp only [split_thousands_bf_go, if_pos h0] at hl
      refine ⟨0, ?_⟩
      subst h0
      rw [← Option.some_inj.mp hl, Int.floor_zero]
      rfl
    · simp only [split_thousands_bf_go, if_neg h0] at hl
      obtain ⟨l2, hgo, hmap⟩ := Option.map_eq_some'.mp hl
      have hmap2 : (ratTrunc (bf_mod_1000 q)).toNat :: l2 = l := hmap
      have ht : (ratTrunc (bf_mod_1000 q)).toNat = ⌊q⌋.toNat % 1000 := by
        rw [bf_mod_1000_trunc q hq, Int.toNat_natCast]
      by_cases hfl : bf_div_1000 q < uflow
      · rw [if_pos hfl] at hgo
        rw [bf_go_zero uflow fuel] at hgo
        have hl2 : l2 = [] := (Option.some_inj.mp hgo).symm
        subst hl2
        have hsmall : ⌊q⌋.toNat < 1000 := flush_small q uflow hu1 hfl
        by_cases hN0 : ⌊q⌋.toNat = 0
        · refine ⟨1, ?_⟩
          rw [← hmap2, ht, hN0]
          rfl
        · refine ⟨0, ?_⟩
          rw [← hmap2, ht, Nat.mod_eq_of_lt hsmall, en_split_eq, if_neg hN0,
              Nat.mod_eq_of_lt hsmall, Nat.div_eq_of_lt hsmall]
          rfl
      · rw [if_neg hfl] at hgo
        obtain ⟨m, hm⟩ := ih (bf_div_1000 q) (bf_div_1000_nonneg q hq) l2 hgo
        have hfloor2 : ⌊bf_div_1000 q⌋.toNat = ⌊q⌋.toNat / 1000 := by
          rw [bf_div_1000_floor q hq, Int.toNat_natCast]
        rw [hfloor2] at hm
        by_cases hN0 : ⌊q⌋.toNat = 0
        · refine ⟨m + 1, ?_⟩
          rw [← hmap2, ht, hm, hN0]
          simp [List.replicate_succ, English.split_thousands, English.split_thousands_go]
        · refine ⟨m, ?_⟩
          rw [← hmap2, ht, hm, en_split_eq ⌊q⌋.toNat, if_neg hN0]
          rfl

theorem bf_go_terminates (uflow : ℚ) (hu : 0 < uflow) :
    ∀ (k : ℕ) (q : ℚ), 0 ≤ q → q < uflow * 1000 ^ k →
      ∃ l, split_thousands_bf_go uflow q (k + 1) = some l := by
  intro k
  induction k with
  | zero =>
    intro q hq hlt
    by_cases h0 : q = 0
    · exact ⟨[], by simp [split_thousands_bf_go, h0]⟩
    · have hfl : bf_div_1000 q < uflow := by
        rw [bf_div_1000_val]
        have h1 : q / 1000 ≤ q := div_le_self hq (by norm_num)
        have h2 : q < uflow := by
          have := hlt
          rw [pow_zero, mul_one] at this
          exact this
        linarith
      refine ⟨[(ratTrunc (bf_mod_1000 q)).toNat], ?_⟩
      rw [bf_go_succ uflow q 0 h0, if_pos hfl, bf_go_zero]
      rfl
  | succ k ih =>
    intro q hq hlt
    by_cases h0 : q = 0
    · exact ⟨[], by simp [split_thousands_bf_go, h0]⟩
    · by_cases hfl : bf_div_1000 q < uflow
      · refine ⟨[(ratTrunc (bf_mod_1000 q)).toNat], ?_⟩
        rw [bf_go_succ uflow q (k + 1) h0, if_pos hfl, bf_go_zero]
        rfl
      · have hlt2 : bf_div_1000 q < uflow * 1000 ^ k := by
          rw [bf_div_1000_val, div_lt_iff₀ (show (0:ℚ) < 1000 by norm_num)]
          calc q < uflow * 1000 ^ (k + 1) := hlt
            _ = uflow * 1000 ^ k * 1000 := by ring
        obtain ⟨l, hl⟩ := ih (bf_div_1000 q) (bf_div_1000_nonneg q hq) hlt2
        refine ⟨(ratTrunc (bf_mod_1000 q)).toNat :: l, ?_⟩
        rw [bf_go_succ uflow q (k + 1) h0, if_neg hfl, hl]
        rfl

theorem replicate_getD_zero : ∀ (m i : ℕ), (List.replicate m (0 : ℕ)).getD i 0 = 0 := by
  intro m
  induction m with
  | zero => intro i; simp
  | succ k ih => intro i; cases i <;> simp [List.replicate_succ, ih]

theorem pad_getD (n m j : ℕ) :
    (English.split_thousands n ++ List.replicate m 0).getD j 0 = n / 1000 ^ j % 1000 := by
  by_cases hj : j < (English.split_thousands n).length
  · rw [List.getD_append _ _ _ _ hj, en_split_getD]
  · push_neg at hj
    rw [List.getD_append_right _ _ _ _ hj]
    have h1 : n < 1000 ^ j :=
      lt_of_lt_of_le (en_split_length_upper n) (Nat.pow_le_pow_right (by norm_num) hj)
    rw [Nat.div_eq_of_lt h1, Nat.zero_mod, replicate_getD_zero]

theorem pad_foldr (n m : ℕ) :
    (English.split_thousands n ++ List.replicate m 0).foldr (fun t acc => t + 1000 * acc) 0
      = n := by
  rw [List.foldr_append]
  have hz : (List.replicate m (0:ℕ)).foldr (fun t acc => t + 1000 * acc) 0 = 0 := by
    induction m with
    | zero => rfl
    | succ k ih => simp [List.replicate_succ, ih]
  rw [hz, en_split_foldr]

theorem en_go_zero_triplet (i : ℕ) (rest : List (ℕ × ℕ)) (w : List String) (fe : Bool) :
    English.int_to_cardinal_go ((i, 0) :: rest) w fe = English.int_to_cardinal_go rest w fe := by
  simp [English.int_to_cardinal_go]

theorem en_go_pad (xs : List ℕ) (m : ℕ) (w : List String) (fe : Bool) :
    English.int_to_cardinal_go ((xs ++ List.replicate m 0).enum.reverse) w fe =
      English.int_to_cardinal_go (xs.enum.reverse) w fe := by
  induction m with
  | zero => rw [List.replicate_zero, List.append_nil]
  | succ k ih =>
    rw [List.replicate_succ' k 0, ← List.append_assoc, enum_reverse_concat, en_go_zero_triplet]
    exact ih

theorem fr_go_zero_triplet (f : French) (i : ℕ) (rest : List (ℕ × ℕ)) (w : List String) :
    French.int_to_cardinal_go f ((i, 0) :: rest) w = French.int_to_cardinal_go f rest w := by
  simp [French.int_to_cardinal_go]

theorem fr_go_pad (f : French) (xs : List ℕ) (m : ℕ) (w : List String) :
    French.int_to_cardinal_go f ((xs ++ List.replicate m 0).enum.reverse) w =
      French.int_to_cardinal_go f (xs.enum.reverse) w := by
  induction m with
  | zero => rw [List.replicate_zero, List.append_nil]
  | succ k ih =>
    rw [List.replicate_succ' k 0, ← List.append_assoc, enum_reverse_concat, fr_go_zero_triplet]
    exact ih

theorem uk_go_zero_triplet (u : Ukrainian) (i : ℕ) (rest : List (ℕ × ℕ)) (w : List String) :
    Ukrainian.int_to_cardinal_go u ((i, 0) :: rest) w =
      Ukrainian.int_to_cardinal_go u rest w := by
  simp [Ukrainian.int_to_cardinal_go]

theorem uk_go_pad (u : Ukrainian) (xs : List ℕ) (m : ℕ) (w : List String) :
    Ukrainian.int_to_cardinal_go u ((xs ++ List.replicate m 0).enum.reverse) w =
      Ukrainian.int_to_cardinal_go u (xs.enum.reverse) w := by
  induction m with
  | zero => rw [List.replicate_zero, List.append_nil]
  | succ k ih =>
    rw [List.replicate_succ' k 0, ← List.append_assoc, enum_reverse_concat, uk_go_zero_triplet]
    exact ih

theorem intercalate_go_eq (s : String) (l : List String) (acc₁ acc₂ : String) :
    String.intercalate.go (acc₁ ++ acc₂) s l = acc₁ ++ String.intercalate.go acc₂ s l := by
  induction l generalizing acc₂ with
  | nil => rfl
  | cons a as ih =>
    simp only [String.intercalate.go]
    rw [String.append_assoc, String.append_assoc, ← String.append_assoc acc₂ s a, ih]

theorem intercalate_cons (s w : String) (ws : List String) (h : ws ≠ []) :
    String.intercalate s (w :: ws) = w ++ s ++ String.intercalate s ws := by
  obtain ⟨b, l, rfl⟩ := List.exists_cons_of_ne_nil h
  show String.intercalate.go w s (b :: l) = w ++ s ++ String.intercalate.go b s l
  simp only [String.intercalate.go]
  rw [show w ++ s ++ b = (w ++ s) ++ b from rfl, intercalate_go_eq]

theorem qfrac_of_den_one (q : ℚ) (h : q.den = 1) : qfrac q = 0 := by
  simp [qfrac, ratTrunc, h]

theorem en_go_append (l : List (ℕ × ℕ)) (w₁ w₂ : List String) (fe : Bool) :
    English.int_to_cardinal_go l (w₁ ++ w₂) fe =
      (English.int_to_cardinal_go l w₂ fe).map (fun ws => w₁ ++ ws) := by
  induction l generalizing w₂ fe with
  | nil => rfl
  | cons p rest ih =>
    obtain ⟨i, t⟩ := p
    simp only [English.int_to_cardinal_go]
    by_cases h1 : i ≠ 0 ∧ t ≠ 0
    · rw [if_pos h1, if_pos h1]
      by_cases h2 : i > English.MEGAS.length
      · rw [if_pos h2, if_pos h2]; rfl
      · rw [if_neg h2, if_neg h2]
        rw [show ∀ (a b c : List String), w₁ ++ w₂ ++ a ++ b ++ c = w₁ ++ (w₂ ++ a ++ b ++ c) from
          fun a b c => by simp [List.append_assoc]]
        exact ih _ _
    · rw [if_neg h1, if_neg h1]
      rw [show ∀ (a b : List String), w₁ ++ w₂ ++ a ++ b = w₁ ++ (w₂ ++ a ++ b) from
        fun a b => by simp [List.append_assoc]]
      exact ih _ _

theorem en_go_ok_prefix (l : List (ℕ × ℕ)) (w : List String) (fe : Bool) (ws : List String)
    (h : English.int_to_cardinal_go l w fe = .ok ws) : ∃ tail, ws = w ++ tail := by
  have hacc := en_go_append l w [] fe
  rw [List.append_nil] at hacc
  rw [hacc] at h
  cases hg : English.int_to_cardinal_go l [] fe with
  | error er => rw [hg] at h; simp [Except.map] at h
  | ok ws0 =>
    rw [hg] at h
    simp only [Except.map, Except.ok.injEq] at h
    exact ⟨ws0, h.symm⟩

theorem en_go_cons_ok_ne_nil (i t : ℕ) (rest : List (ℕ × ℕ)) (fe : Bool) (ws : List String)
    (ht : t ≠ 0) (hlt : t < 1000)
    (h : English.int_to_cardinal_go ((i, t) :: rest) [] fe = .ok ws) : ws ≠ [] := by
  simp only [English.int_to_cardinal_go] at h
  by_cases h1 : i ≠ 0 ∧ t ≠ 0
  · rw [if_pos h1] at h
    by_cases h2 : i > English.MEGAS.length
    · rw [if_pos h2] at h; exact absurd h (by simp)
    · rw [if_neg h2] at h
      obtain ⟨tail, htail⟩ := en_go_ok_prefix _ _ _ _ h
      subst htail
      simp
  · rw [if_neg h1] at h
    have hi : i = 0 := by tauto
    obtain ⟨tail, htail⟩ := en_go_ok_prefix _ _ _ _ h
    subst htail
    by_cases hh : t / 100 % 10 > 0
    · simp [hh]
    · have htu : t / 10 % 10 ≠ 0 ∨ t % 10 ≠ 0 := by omega
      have : ¬ (t / 10 % 10 = 0 ∧ t % 10 = 0) := by tauto
      simp only [List.nil_append]
      intro hc
      rw [List.append_eq_nil, List.append_eq_nil] at hc
      obtain ⟨⟨hc1, hc2⟩, hc3⟩ := hc
      rw [if_pos (show t / 10 % 10 ≠ 0 ∨ t % 10 ≠ 0 from htu)] at hc2
      obtain ⟨hc4, hc5⟩ := List.append_eq_nil.mp hc2
      revert hc5
      split
      · simp
      · split <;> simp

theorem en_int_neg (e : English) (n : ℤ) (hn : 0 < n) :
    English.int_to_cardinal e (-n) = (English.int_to_cardinal e n).map (fun s => "minus" ++ " " ++ s) := by
  unfold English.int_to_cardinal
  rw [if_neg (show ¬ (-n = 0) by omega), if_neg (show ¬ (n = 0) by omega),
      if_pos (show -n < 0 by omega), if_neg (show ¬ (n < 0) by omega), Int.natAbs_neg]
  obtain ⟨ys, t, hsp, ht⟩ := en_split_concat n.natAbs (by omega)
  have hlt : t < 1000 := en_split_lt n.natAbs t (by rw [hsp]; simp)
  rw [hsp, enum_reverse_concat]
  have hacc := en_go_append ((ys.length, t) :: ys.enum.reverse) ["minus"] [] true
  rw [List.append_nil] at hacc
  rw [hacc]
  cases hg : English.int_to_cardinal_go ((ys.length, t) :: ys.enum.reverse) [] true with
  | error er => simp [Except.map]
  | ok ws =>
    have hne : ws ≠ [] := en_go_cons_ok_ne_nil _ _ _ _ _ ht hlt hg
    simp only [Except.map]
    rw [show (["minus"] ++ ws) = "minus" :: ws from rfl, intercalate_cons _ _ _ hne]

theorem fr_go_append (self : French) (l : List (ℕ × ℕ)) (w₁ w₂ : List String) :
    French.int_to_cardinal_go self l (w₁ ++ w₂) =
      (French.int_to_cardinal_go self l w₂).map (fun ws => w₁ ++ ws) := by
  induction l generalizing w₂ with
  | nil => rfl
  | cons p rest ih =>
    obtain ⟨i, t⟩ := p
    simp only [French.int_to_cardinal_go]
    by_cases h1 : i ≠ 0 ∧ t ≠ 0
    · rw [if_pos h1, if_pos h1]
      by_cases h2 : i > French.MEGAS.length
      · rw [if_pos h2, if_pos h2]; rfl
      · rw [if_neg h2, if_neg h2]
        rw [show ∀ (a b c : List String), w₁ ++ w₂ ++ a ++ b ++ c = w₁ ++ (w₂ ++ a ++ b ++ c) from
          fun a b c => by simp [List.append_assoc]]
        exact ih _
    · rw [if_neg h1, if_neg h1]
      rw [show ∀ (a b : List String), w₁ ++ w₂ ++ a ++ b = w₁ ++ (w₂ ++ a ++ b) from
        fun a b => by simp [List.append_assoc]]
      exact ih _

theorem fr_go_ok_prefix (self : French) (l : List (ℕ × ℕ)) (w : List String) (ws : List String)
    (h : French.int_to_cardinal_go self l w = .ok ws) : ∃ tail, ws = w ++ tail := by
  have hacc := fr_go_append self l w []
  rw [List.append_nil] at hacc
  rw [hacc] at h
  cases hg : French.int_to_cardinal_go self l [] with
  | error er => rw [hg] at h; simp [Except.map] at h
  | ok ws0 =>
    rw [hg] at h
    simp only [Except.map, Except.ok.injEq] at h
    exact ⟨ws0, h.symm⟩

theorem fr_go_cons_ok_ne_nil (self : French) (i t : ℕ) (rest : List (ℕ × ℕ)) (ws : List String)
    (ht : t ≠ 0) (hlt : t < 1000)
    (h : French.int_to_cardinal_go self ((i, t) :: rest) [] = .ok ws) : ws ≠ [] := by
  simp only [French.int_to_cardinal_go] at h
  by_cases h1 : i ≠ 0 ∧ t ≠ 0
  · rw [if_pos h1] at h
    by_cases h2 : i > French.MEGAS.length
    · rw [if_pos h2] at h; exact absurd h (by simp)
    · rw [if_neg h2] at h
      obtain ⟨tail, htail⟩ := fr_go_ok_prefix _ _ _ _ h
      subst htail
      simp
  · rw [if_neg h1] at h
    have hi : i = 0 := by tauto
    obtain ⟨tail, htail⟩ := fr_go_ok_prefix _ _ _ _ h
    subst htail
    by_cases hh : t / 100 % 10 > 0
    · simp [hh]
    · have htu : t / 10 % 10 ≠ 0 ∨ t % 10 ≠ 0 := by omega
      simp only [List.nil_append]
      intro hc
      rw [List.append_eq_nil, List.append_eq_nil] at hc
      obtain ⟨⟨hc1, hc2⟩, hc3⟩ := hc
      rw [if_pos htu] at hc2
      revert hc2
      split
      · simp
      · split
        · simp [hi]
        · split
          · simp
          · split
            · simp
            · split
              · simp
              · split <;> simp

theorem fr_int_neg (f : French) (n : ℤ) (hn : 0 < n) :
    French.int_to_cardinal f (-n) =
      (French.int_to_cardinal f n).map
        (fun s => "moins" ++ (if f.reformed then "-" else " ") ++ s) := by
  unfold French.int_to_cardinal
  rw [if_neg (show ¬ (-n = 0) by omega), if_neg (show ¬ (n = 0) by omega),
      if_pos (show -n < 0 by omega), if_neg (show ¬ (n < 0) by omega), Int.natAbs_neg]
  obtain ⟨ys, t, hsp, ht⟩ := en_split_concat n.natAbs (by omega)
  have hlt : t < 1000 := en_split_lt n.natAbs t (by rw [hsp]; simp)
  rw [fr_split_eq_en, hsp, enum_reverse_concat]
  have hacc := fr_go_append f ((ys.length, t) :: ys.enum.reverse) ["moins"] []
  rw [List.append_nil] at hacc
  rw [hacc]
  cases hg : French.int_to_cardinal_go f ((ys.length, t) :: ys.enum.reverse) [] with
  | error er => simp [Except.map]
  | ok ws =>
    have hne : ws ≠ [] := fr_go_cons_ok_ne_nil _ _ _ _ _ ht hlt hg
    simp only [Except.map]
    rw [show (["moins"] ++ ws) = "moins" :: ws from rfl, intercalate_cons _ _ _ hne]

theorem uk_go_append (self : Ukrainian) (l : List (ℕ × ℕ)) (w₁ w₂ : List String) :
    Ukrainian.int_to_cardinal_go self l (w₁ ++ w₂) =
      (Ukrainian.int_to_cardinal_go self l w₂).map (fun ws => w₁ ++ ws) := by
  induction l generalizing w₂ with
  | nil => rfl
  | cons p rest ih =>
    obtain ⟨i, t⟩ := p
    simp only [Ukrainian.int_to_cardinal_go]
    by_cases h1 : i ≠ 0 ∧ t ≠ 0
    · rw [if_pos h1, if_pos h1]
      by_cases h2 : i > Ukrainian.MEGA_BASES.length
      · rw [if_pos h2, if_pos h2]; rfl
      · rw [if_neg h2, if_neg h2]
        rw [show ∀ (a b c : List String), w₁ ++ w₂ ++ a ++ b ++ c = w₁ ++ (w₂ ++ a ++ b ++ c) from
          fun a b c => by simp [List.append_assoc]]
        exact ih _
    · rw [if_neg h1, if_neg h1]
      rw [show ∀ (a b : List String), w₁ ++ w₂ ++ a ++ b = w₁ ++ (w₂ ++ a ++ b) from
        fun a b => by simp [List.append_assoc]]
      exact ih _

theorem uk_go_ok_prefix (self : Ukrainian) (l : List (ℕ × ℕ)) (w : List String) (ws : List String)
    (h : Ukrainian.int_to_cardinal_go self l w = .ok ws) : ∃ tail, ws = w ++ tail := by
  have hacc := uk_go_append self l w []
  rw [List.append_nil] at hacc
  rw [hacc] at h
  cases hg : Ukrainian.int_to_cardinal_go self l [] with
  | error er => rw [hg] at h; simp [Except.map] at h
  | ok ws0 =>
    rw [hg] at h
    simp only [Except.map, Except.ok.injEq] at h
    exact ⟨ws0, h.symm⟩

theorem uk_go_cons_ok_ne_nil (self : Ukrainian) (i t : ℕ) (rest : List (ℕ × ℕ)) (ws : List String)
    (ht : t ≠ 0) (hlt : t < 1000)
    (h : Ukrainian.int_to_cardinal_go self ((i, t) :: rest) [] = .ok ws) : ws ≠ [] := by
  simp only [Ukrainian.int_to_cardinal_go] at h
  by_cases h1 : i ≠ 0 ∧ t ≠ 0
  · rw [if_pos h1] at h
    by_cases h2 : i > Ukrainian.MEGA_BASES.length
    · rw [if_pos h2] at h; exact absurd h (by simp)
    · rw [if_neg h2] at h
      obtain ⟨tail, htail⟩ := uk_go_ok_prefix _ _ _ _ h
      subst htail
      simp
  · rw [if_neg h1] at h
    obtain ⟨tail, htail⟩ := uk_go_ok_prefix _ _ _ _ h
    subst htail
    by_cases hh : t / 100 % 10 > 0
    · simp [hh]
    · simp only [List.nil_append]
      intro hc
      rw [List.append_eq_nil, List.append_eq_nil] at hc
      obtain ⟨⟨hc1, hc2⟩, hc3⟩ := hc
      revert hc2
      split
      · simp
      · intro hc2
        obtain ⟨hc4, hc5⟩ := List.append_eq_nil.mp hc2
        have hte : ¬ (t / 10 % 10 > 1) := by
          intro hgt
          rw [if_pos hgt] at hc4
          simp at hc4
        have ht0 : t / 10 % 10 = 0 := by omega
        have hu : t % 10 ≠ 0 := by omega
        revert hc5
        split
        · simp
        · split
          · simp
          · omega

theorem uk_int_neg (u : Ukrainian) (n : ℤ) (hn : 0 < n) :
    Ukrainian.int_to_cardinal u (-n) =
      (Ukrainian.int_to_cardinal u n).map (fun s => "мінус" ++ " " ++ s) := by
  unfold Ukrainian.int_to_cardinal
  rw [if_neg (show ¬ (-n = 0) by omega), if_neg (show ¬ (n = 0) by omega),
      if_pos (show -n < 0 by omega), if_neg (show ¬ (n < 0) by omega), Int.natAbs_neg]
  obtain ⟨ys, t, hsp, ht⟩ := en_split_concat n.natAbs (by omega)
  have hlt : t < 1000 := en_split_lt n.natAbs t (by rw [hsp]; simp)
  rw [uk_split_eq_en, hsp, enum_reverse_concat]
  have hacc := uk_go_append u ((ys.length, t) :: ys.enum.reverse) [Ukrainian.MINUS] []
  rw [List.append_nil] at hacc
  rw [hacc]
  cases hg : Ukrainian.int_to_cardinal_go u ((ys.length, t) :: ys.enum.reverse) [] with
  | error er => simp [Except.map]
  | ok ws =>
    have hne : ws ≠ [] := uk_go_cons_ok_ne_nil _ _ _ _ _ ht hlt hg
    simp only [Except.map]
    rw [show ([Ukrainian.MINUS] ++ ws) = Ukrainian.MINUS :: ws from rfl,
        intercalate_cons _ _ _ hne]
    rfl

/-- C5 counterexample: the claim that split_thousands produces exactly
the base-1000 triplets with no extra entries is false of the program.
The source loop divides with the floating division of the supplied type
(`num /= bf_1000`, with no truncation), so after the last true triplet
the value is a nonzero fraction and the loop pushes trailing zero
entries until that value underflows to zero.  At magnitude 1, under the
representative underflow threshold of 10 to the -40, the executed loop
returns the unique triplet followed by 13 zero entries, not the
one-entry list. -/
theorem C5_counterexample :
    English.split_thousands 1 = [1] ∧
    English.split_thousands_bf (mkRat 1 (10 ^ 40)) 1 20 = some (1 :: List.replicate 13 0) ∧
    (1 :: List.replicate 13 0 : List ℕ) ≠ [1] := by decide

/-- C5 (amended): the magnitude decomposer split_thousands (identical in
the English and Ukrainian modules), applied to any non-negative integer
magnitude, terminates for every positive underflow threshold of the
supplied type, and produces the ordered sequence of base-1000 triplets,
least significant first, followed by trailing zero entries pushed by the
floating division until its quotient underflows: whenever the loop
returns, the output is the triplet list plus zero padding, entry j is
num / 1000^j mod 1000 for every j, every entry is below 1000, the
entries reassemble to the input, and the output is empty exactly for a
zero magnitude, which produces no padding; no error or panic is
possible. -/
theorem C5_split_thousands_padded :
    (∀ (uflow : ℚ) (num fuel : ℕ),
      Ukrainian.split_thousands_bf uflow num fuel = English.split_thousands_bf uflow num fuel) ∧
    (∀ (uflow : ℚ) (fuel : ℕ), English.split_thousands_bf uflow 0 fuel = some []) ∧
    (∀ uflow : ℚ, 0 < uflow → ∀ num : ℕ, ∃ fuel l,
      English.split_thousands_bf uflow num fuel = some l) ∧
    (∀ uflow : ℚ, uflow ≤ 1 → ∀ (num fuel : ℕ) (l : List ℕ),
      English.split_thousands_bf uflow num fuel = some l →
      (∃ m, l = English.split_thousands num ++ List.replicate m 0) ∧
      (∀ j, l.getD j 0 = num / 1000 ^ j % 1000) ∧
      l.foldr (fun t acc => t + 1000 * acc) 0 = num ∧
      (∀ t ∈ l, t < 1000) ∧
      (l = [] ↔ num = 0)) := by
  refine ⟨fun _ _ _ => rfl, ?_, ?_, ?_⟩
  · intro uflow fuel
    show split_thousands_bf_go uflow ((0 : ℕ) : ℚ) fuel = some []
    rw [Nat.cast_zero]
    exact bf_go_zero uflow fuel
  · intro uflow hu num
    obtain ⟨k, hk⟩ := pow_unbounded_of_one_lt ((num : ℚ) / uflow) (show (1:ℚ) < 1000 by norm_num)
    refine ⟨k + 1, ?_⟩
    have h1 : (num : ℚ) < uflow * 1000 ^ k := by
      rw [div_lt_iff₀ hu] at hk
      calc (num : ℚ) < 1000 ^ k * uflow := hk
        _ = uflow * 1000 ^ k := by ring
    exact bf_go_terminates uflow hu k (num : ℚ) (by positivity) h1
  · intro uflow hu1 num fuel l hl
    have hpad : ∃ m, l = English.split_thousands num ++ List.replicate m 0 := by
      have h1 := bf_go_padded uflow hu1 fuel ((num : ℕ) : ℚ) (by positivity) l hl
      rwa [Int.floor_natCast, Int.toNat_natCast] at h1
    obtain ⟨m, hm⟩ := hpad
    refine ⟨⟨m, hm⟩, ?_, ?_, ?_, ?_⟩
    · intro j; rw [hm]; exact pad_getD num m j
    · rw [hm]; exact pad_foldr num m
    · intro t ht
      rw [hm] at ht
      rcases List.mem_append.mp ht with h | h
      · exact en_split_lt num t h
      · rw [List.eq_of_mem_replicate h]; norm_num
    · constructor
      · intro hnil
        rw [hnil] at hm
        exact (en_split_nil_iff num).mp (List.append_eq_nil.mp hm.symm).1
      · intro h0
        subst h0
        have h2 : English.split_thousands_bf uflow 0 fuel = some [] := by
          show split_thousands_bf_go uflow ((0 : ℕ) : ℚ) fuel = some []
          rw [Nat.cast_zero]
          exact bf_go_zero uflow fuel
        rw [h2] at hl
        exact (Option.some_inj.mp hl).symm

/-- Witness for C5: termination at magnitude 3, and the padded execution
at magnitude 1234567 under the underflow threshold of 10 to the -40,
whose output is the three triplets followed by 13 zero entries. -/
theorem C5_witness :
    (0 : ℚ) < mkRat 1 (10 ^ 40) ∧ (mkRat 1 (10 ^ 40) : ℚ) ≤ 1 ∧
    (∃ fuel l, English.split_thousands_bf (mkRat 1 (10 ^ 40)) 3 fuel = some l) ∧
    (∃ m, ([567, 234, 1] ++ List.replicate 13 0 : List ℕ) =
      English.split_thousands 1234567 ++ List.replicate m 0) :=
  ⟨by decide, by decide,
   C5_split_thousands_padded.2.2.1 (mkRat 1 (10 ^ 40)) (by decide) 3,
   (C5_split_thousands_padded.2.2.2 (mkRat 1 (10 ^ 40)) (by decide) 1234567 20
      ([567, 234, 1] ++ List.replicate 13 0) (by decide)).1⟩

/-- C2: for English, Ukrainian and French, on any integral input whose
highest nonzero base-1000 triplet index exceeds the scale-word table
length (21 entries for English and Ukrainian, 33 for French), to_cardinal
returns the CannotConvert error: no panic and no truncated word
sequence. -/
theorem C2_scale_word_ceiling :
    English.MEGAS.length = 21 ∧ Ukrainian.MEGA_BASES.length = 21 ∧ French.MEGAS.length = 33 ∧
    (∀ (e : English) (q : ℚ), q.den = 1 →
      English.MEGAS.length < (English.split_thousands q.num.natAbs).length - 1 →
      English.to_cardinal e (.fin q) = some (.error Num2Err.CannotConvert)) ∧
    (∀ (u : Ukrainian) (q : ℚ), q.den = 1 →
      Ukrainian.MEGA_BASES.length < (Ukrainian.split_thousands q.num.natAbs).length - 1 →
      Ukrainian.to_cardinal u (.fin q) = some (.error Num2Err.CannotConvert)) ∧
    (∀ (f : French), ∀ (q : ℚ), q.den = 1 →
      French.MEGAS.length < (French.split_thousands q.num.natAbs).length - 1 →
      French.to_cardinal f (.fin q) = some (.error Num2Err.CannotConvert)) := by
  refine ⟨rfl, rfl, rfl, ?_, ?_, ?_⟩
  · intro e q hden hlen
    have hq0 : ¬ (q.num = 0) := by
      intro h0
      rw [h0] at hlen
      revert hlen
      decide
    rw [show English.to_cardinal e (.fin q) =
        (if qfrac q = 0 then some (English.int_to_cardinal e q.num)
         else English.float_to_cardinal e q) from rfl]
    rw [if_pos (qfrac_of_den_one q hden)]
    obtain ⟨ys, t, hsp, ht⟩ := en_split_concat q.num.natAbs (by simpa using hq0)
    have hys : ys.length = (English.split_thousands q.num.natAbs).length - 1 := by
      rw [hsp]; simp
    have hgt : ys.length > English.MEGAS.length := by omega
    unfold English.int_to_cardinal
    rw [if_neg hq0, hsp, enum_reverse_concat]
    simp only [English.int_to_cardinal_go]
    rw [if_pos ⟨(by omega : ys.length ≠ 0), ht⟩, if_pos hgt]
  · intro u q hden hlen
    rw [uk_split_eq_en] at hlen
    have hq0 : ¬ (q.num = 0) := by
      intro h0
      rw [h0] at hlen
      revert hlen
      decide
    rw [show Ukrainian.to_cardinal u (.fin q) =
        (if qfrac q = 0 then some (Ukrainian.int_to_cardinal u q.num)
         else Ukrainian.float_to_cardinal u q) from rfl]
    rw [if_pos (qfrac_of_den_one q hden)]
    obtain ⟨ys, t, hsp, ht⟩ := en_split_concat q.num.natAbs (by simpa using hq0)
    have hys : ys.length = (English.split_thousands q.num.natAbs).length - 1 := by
      rw [hsp]; simp
    have hgt : ys.length > Ukrainian.MEGA_BASES.length := by
      have : English.MEGAS.length = Ukrainian.MEGA_BASES.length := rfl
      omega
    unfold Ukrainian.int_to_cardinal
    rw [if_neg hq0, uk_split_eq_en, hsp, enum_reverse_concat]
    simp only [Ukrainian.int_to_cardinal_go]
    rw [if_pos ⟨(by omega : ys.length ≠ 0), ht⟩, if_pos hgt]
  · intro f q hden hlen
    rw [fr_split_eq_en] at hlen
    have hq0 : ¬ (q.num = 0) := by
      intro h0
      rw [h0] at hlen
      revert hlen
      decide
    rw [show French.to_cardinal f (.fin q) =
        (if qfrac q = 0 then some (French.int_to_cardinal f q.num)
         else French.float_to_cardinal f q) from rfl]
    rw [if_pos (qfrac_of_den_one q hden)]
    obtain ⟨ys, t, hsp, ht⟩ := en_split_concat q.num.natAbs (by simpa using hq0)
    have hys : ys.length = (English.split_thousands q.num.natAbs).length - 1 := by
      rw [hsp]; simp
    have hgt : ys.length > French.MEGAS.length := by omega
    unfold French.int_to_cardinal
    rw [if_neg hq0, fr_split_eq_en, hsp, enum_reverse_concat]
    simp only [French.int_to_cardinal_go]
    rw [if_pos ⟨(by omega : ys.length ≠ 0), ht⟩, if_pos hgt]

/-- Witness for C2 at the concrete magnitude 1000^23, whose highest
triplet index 23 exceeds the English table length 21. -/
theorem C2_witness :
    ((mkRat (1000 ^ 23) 1 : ℚ).den = 1 ∧
      English.MEGAS.length <
        (English.split_thousands (mkRat (1000 ^ 23) 1 : ℚ).num.natAbs).length - 1) ∧
    English.to_cardinal ⟨false, false⟩ (.fin (mkRat (1000 ^ 23) 1)) =
      some (.error Num2Err.CannotConvert) :=
  ⟨⟨by decide, by decide⟩,
   C2_scale_word_ceiling.2.2.2.1 ⟨false, false⟩ (mkRat (1000 ^ 23) 1) (by decide) (by decide)⟩

/-- C3: for every base grammatical profile p and digits t, u, the
Ukrainian agreement resolver returns plural with the case switched from
nominative to genitive (kept otherwise) when u = 0 or u > 4 or t = 1;
singular with every other field unchanged when u = 1 and t is not 1; and
plural with the case unchanged when u is 2, 3 or 4 and t is not 1. -/
theorem C3_agreement_with_units_cases :
    ∀ (p : Ukrainian) (t u : ℕ),
      ((u = 0 ∨ u > 4 ∨ t = 1) →
        p.agreement_with_units t u =
          ⟨p.gender, GrammaticalNumber.Plural,
           if p.declination = Declination.Nominative then Declination.Genitive
           else p.declination⟩) ∧
      ((u = 1 ∧ t ≠ 1) →
        p.agreement_with_units t u = ⟨p.gender, GrammaticalNumber.Singular, p.declination⟩) ∧
      (((u = 2 ∨ u = 3 ∨ u = 4) ∧ t ≠ 1) →
        p.agreement_with_units t u = ⟨p.gender, GrammaticalNumber.Plural, p.declination⟩) := by
  intro p t u
  refine ⟨?_, ?_, ?_⟩
  · intro h
    unfold Ukrainian.agreement_with_units
    rw [if_pos h]
    by_cases hnom : p.declination = Declination.Nominative
    · rw [if_pos hnom, if_pos hnom]
      rfl
    · rw [if_neg hnom, if_neg hnom]
      rfl
  · rintro ⟨h1, h2⟩
    unfold Ukrainian.agreement_with_units
    rw [if_neg (by omega), if_pos h1]
    rfl
  · rintro ⟨h1, h2⟩
    unfold Ukrainian.agreement_with_units
    rw [if_neg (by omega), if_neg (by omega)]
    rfl

/-- Witness for C3 at the default profile with digit pairs (0,0) and
(2,1). -/
theorem C3_witness :
    ((0 = 0 ∨ 0 > 4 ∨ 0 = 1) ∧
      Ukrainian.default.agreement_with_units 0 0 =
        ⟨Ukrainian.default.gender, GrammaticalNumber.Plural,
         if Ukrainian.default.declination = Declination.Nominative then Declination.Genitive
         else Ukrainian.default.declination⟩) ∧
    ((1 = 1 ∧ 2 ≠ 1) ∧
      Ukrainian.default.agreement_with_units 2 1 =
        ⟨Ukrainian.default.gender, GrammaticalNumber.Singular, Ukrainian.default.declination⟩) :=
  ⟨⟨Or.inl rfl, (C3_agreement_with_units_cases Ukrainian.default 0 0).1 (Or.inl rfl)⟩,
   ⟨⟨rfl, by decide⟩, (C3_agreement_with_units_cases Ukrainian.default 2 1).2.1 ⟨rfl, by decide⟩⟩⟩

/-- C4: for every language renderer (hence every language and preference
set), to_words with output kind ordinal or ordinal_num returns
InfiniteOrdinal on infinite input, FloatingOrdinal on input with nonzero
fractional part, and NegativeOrdinal on negative integral input; with
output kind year it returns InfiniteYear on infinite input and
FloatingYear on non-integral input.  The statement quantifies over an
arbitrary renderer, so each error is produced at the dispatch boundary
before any per-language rendering runs. -/
theorem C4_dispatch_domain_errors :
    ∀ (lang : LangRenderer) (cur : Currency) (out : Output),
      ((out = Output.Ordinal ∨ out = Output.OrdinalNum) →
        (∀ num : BigFloat, num.isInf = true →
          to_words lang out num cur = .error Num2Err.InfiniteOrdinal) ∧
        (∀ q : ℚ, qfrac q ≠ 0 →
          to_words lang out (.fin q) cur = .error Num2Err.FloatingOrdinal) ∧
        (∀ q : ℚ, qfrac q = 0 → q < 0 →
          to_words lang out (.fin q) cur = .error Num2Err.NegativeOrdinal)) ∧
      (out = Output.Year →
        (∀ num : BigFloat, num.isInf = true →
          to_words lang out num cur = .error Num2Err.InfiniteYear) ∧
        (∀ q : ℚ, qfrac q ≠ 0 →
          to_words lang out (.fin q) cur = .error Num2Err.FloatingYear)) := by
  intro lang cur out
  constructor
  · rintro (rfl | rfl) <;> refine ⟨?_, ?_, ?_⟩
    · intro num h1
      cases num <;> simp_all [to_words, BigFloat.isInf]
    · intro q h1
      simp only [to_words, BigFloat.isInf, BigFloat.frac, BigFloat.isZero]
      rw [if_neg (by simp), if_pos (by simp [h1])]
    · intro q h1 h2
      simp only [to_words, BigFloat.isInf, BigFloat.frac, BigFloat.isZero, BigFloat.isNegative]
      rw [if_neg (by simp), if_neg (by simp [h1]), if_pos (by simp [h2])]
    · intro num h1
      cases num <;> simp_all [to_words, BigFloat.isInf]
    · intro q h1
      simp only [to_words, BigFloat.isInf, BigFloat.frac, BigFloat.isZero]
      rw [if_neg (by simp), if_pos (by simp [h1])]
    · intro q h1 h2
      simp only [to_words, BigFloat.isInf, BigFloat.frac, BigFloat.isZero, BigFloat.isNegative]
      rw [if_neg (by simp), if_neg (by simp [h1]), if_pos (by simp [h2])]
  · rintro rfl
    refine ⟨?_, ?_⟩
    · intro num h1
      cases num <;> simp_all [to_words, BigFloat.isInf]
    · intro q h1
      simp only [to_words, BigFloat.isInf, BigFloat.frac, BigFloat.isZero]
      rw [if_neg (by simp), if_pos (by simp [h1])]

/-- Witness for C4 on a constant renderer at 3/2 (ordinal) and positive
infinity (year). -/
theorem C4_witness :
    ((Output.Ordinal = Output.Ordinal ∨ Output.Ordinal = Output.OrdinalNum) ∧
      qfrac (mkRat 3 2) ≠ 0 ∧
      to_words ⟨fun _ => .ok "", fun _ => .ok "", fun _ => .ok "", fun _ => .ok "",
          fun _ _ => .ok ""⟩
        Output.Ordinal (.fin (mkRat 3 2)) Currency.DOLLAR = .error Num2Err.FloatingOrdinal) ∧
    (Output.Year = Output.Year ∧
      to_words ⟨fun _ => .ok "", fun _ => .ok "", fun _ => .ok "", fun _ => .ok "",
          fun _ _ => .ok ""⟩
        Output.Year BigFloat.posInf Currency.DOLLAR = .error Num2Err.InfiniteYear) :=
  ⟨⟨Or.inl rfl, by decide,
    ((C4_dispatch_domain_errors _ Currency.DOLLAR Output.Ordinal).1 (Or.inl rfl)).2.1
      (mkRat 3 2) (by decide)⟩,
   ⟨rfl,
    ((C4_dispatch_domain_errors _ Currency.DOLLAR Output.Year).2 rfl).1
      BigFloat.posInf (by decide)⟩⟩

/-- C9: for every non-negative integer N, English to_ordinal_num returns
Ok of the decimal-digit representation of N followed by a suffix
determined only by N mod 100: "th" for 11, 12 and 13, otherwise "st",
"nd" or "rd" when the last digit is 1, 2 or 3, and "th" in all other
cases. -/
theorem C9_ordinal_num_suffix (e : English) (num : ℕ) :
    English.to_ordinal_num e num = .ok (Nat.repr num ++ ordinal_num_suffix_spec (num % 100)) := by
  have h : num % 100 < 100 := Nat.mod_lt _ (by norm_num)
  have key : ∀ m, m < 100 →
      (if m / 10 ≠ 1 ∧ m % 10 = 1 then "st"
       else if m / 10 ≠ 1 ∧ m % 10 = 2 then "nd"
       else if m / 10 ≠ 1 ∧ m % 10 = 3 then "rd"
       else "th") = ordinal_num_suffix_spec m := by decide
  simp only [English.to_ordinal_num]
  rw [key (num % 100) h]

/-- C10: for English, French and Ukrainian, to_cardinal on positive
infinity returns Ok with the infinity word of the language, and on
negative infinity returns Ok with the minus word prefixed to the infinity
word; cardinal conversion of an infinite value never returns an error. -/
theorem C10_infinity_cardinal :
    (∀ e : English,
      English.to_cardinal e BigFloat.posInf = some (.ok "infinity") ∧
      English.to_cardinal e BigFloat.negInf = some (.ok ("minus" ++ " " ++ "infinity"))) ∧
    (∀ f : French,
      French.to_cardinal f BigFloat.posInf = some (.ok "infinité") ∧
      French.to_cardinal f BigFloat.negInf = some (.ok ("moins" ++ " " ++ "infinité"))) ∧
    (∀ u : Ukrainian,
      Ukrainian.to_cardinal u BigFloat.posInf =
        some (.ok (Ukrainian.INFINITY.getD u.declination.index "")) ∧
      Ukrainian.to_cardinal u BigFloat.negInf =
        some (.ok (Ukrainian.MINUS ++ " " ++ Ukrainian.INFINITY.getD u.declination.index ""))) :=
  ⟨fun _ => ⟨rfl, rfl⟩, fun _ => ⟨rfl, rfl⟩, fun _ => ⟨rfl, rfl⟩⟩

theorem except_map_append_empty (x : Except Num2Err String) :
    x.map (fun w => w ++ "") = x := by
  cases x <;> simp [Except.map]

/-- C7: for every positive integer year, with high the value divided by
100 and low the value mod 100, English to_year returns the plain cardinal
rendering of the full value when high = 0, or high is a multiple of 10
with low below 10, or high is at least 100; otherwise the cardinal of
high and a low part joined by a space, where the low part is the literal
word "hundred" when low = 0, "oh-" prefixed to the cardinal of low when
low is 1 to 9, and the cardinal of low otherwise; for a negative year the
rendering of the absolute value is suffixed with the era marker " BC". -/
theorem C7_to_year_english (e : English) (n : ℤ) :
    (0 < n →
      English.to_year e n =
        (if n.toNat / 100 = 0 ∨ (n.toNat / 100 % 10 = 0 ∧ n.toNat % 100 < 10) ∨
            n.toNat / 100 ≥ 100 then
          English.int_to_cardinal e n
        else do
          let high_word ← English.int_to_cardinal e ((n.toNat / 100 : ℕ) : ℤ)
          let low_word ←
            if n.toNat % 100 = 0 then pure "hundred"
            else if n.toNat % 100 < 10 then do
              let w ← English.int_to_cardinal e ((n.toNat % 100 : ℕ) : ℤ)
              pure ("oh-" ++ w)
            else English.int_to_cardinal e ((n.toNat % 100 : ℕ) : ℤ)
          pure (high_word ++ " " ++ low_word))) ∧
    (n < 0 → English.to_year e n = (English.to_year e (-n)).map (fun w => w ++ " BC")) := by
  constructor
  · intro hn
    simp only [English.to_year]
    rw [if_neg (show ¬ n < 0 by omega)]
    have htn : n.natAbs = n.toNat := by omega
    have habs : ((n.toNat : ℕ) : ℤ) = n := by omega
    rw [htn, habs, except_map_append_empty]
  · intro hn
    simp only [English.to_year]
    rw [if_pos hn, if_neg (show ¬ -n < 0 by omega), Int.natAbs_neg, except_map_append_empty]

theorem en_to_currency_unfold (e : English) (c : Currency) (q : ℚ) :
    English.to_currency e (.fin q) c =
      (if qfrac q = 0 then
        (English.int_to_cardinal e q.num).map
          (fun words => words ++ " " ++ e.currencies c (decide (q ≠ 1)))
      else do
        let cents_words ← English.int_to_cardinal e (trunc_cents q)
        let integral_word ← (English.int_to_cardinal e (ratTrunc q)).map
          (fun words => words ++ " " ++ e.currencies c (decide (ratTrunc q ≠ 1)))
        if trunc_cents q = 0 then pure integral_word
        else if ratTrunc q = 0 then
          pure (cents_words ++ " " ++ e.cents c (decide (trunc_cents q ≠ 1)))
        else
          pure (integral_word ++ " and " ++ cents_words ++ " " ++
            e.cents c (decide (trunc_cents q ≠ 1)))) := rfl

theorem fr_to_currency_unfold (f : French) (c : Currency) (q : ℚ) :
    French.to_currency f (.fin q) c =
      (if qfrac q = 0 then
        (French.int_to_cardinal f q.num).map
          (fun words => words ++ " " ++ f.currencies c (decide (q ≠ 1)))
      else do
        let cents_words ← French.int_to_cardinal f (trunc_cents q)
        let integral_word ← (French.int_to_cardinal f (ratTrunc q)).map
          (fun words => words ++ " " ++ f.currencies c (decide (ratTrunc q ≠ 1)))
        if trunc_cents q = 0 then pure integral_word
        else if ratTrunc q = 0 then
          pure (cents_words ++ " " ++ f.cents c (decide (trunc_cents q ≠ 1)))
        else
          pure (integral_word ++ " et " ++ cents_words ++ " " ++
            f.cents c (decide (trunc_cents q ≠ 1)))) := rfl

/-- C8: in English currency rendering the major-unit name is singular
exactly when the rendered amount equals 1 and plural for 0 and every
other amount; the minor-unit name is singular exactly when the computed
subunit count equals 1 and plural otherwise; a computed subunit count of
0 elides the minor phrase and renders the (plural-for-0) major phrase. -/
theorem C8_currency_pluralization (e : English) (c : Currency) (q : ℚ) :
    (qfrac q = 0 →
      English.to_currency e (.fin q) c =
        (English.int_to_cardinal e q.num).map
          (fun w => w ++ " " ++ (if q = 1 then e.currencies c false else e.currencies c true))) ∧
    (qfrac q ≠ 0 → ratTrunc q = 0 → trunc_cents q ≠ 0 →
      English.to_currency e (.fin q) c =
        (English.int_to_cardinal e (trunc_cents q)).map
          (fun w => w ++ " " ++
            (if trunc_cents q = 1 then e.cents c false else e.cents c true))) ∧
    (qfrac q ≠ 0 → ratTrunc q = 0 → trunc_cents q = 0 →
      English.to_currency e (.fin q) c =
        (English.int_to_cardinal e 0).map
          (fun w => w ++ " " ++ e.currencies c true)) := by
  refine ⟨?_, ?_, ?_⟩
  · intro h
    rw [en_to_currency_unfold, if_pos h]
    by_cases hq1 : q = 1
    · simp [hq1]
    · simp [hq1]
  · intro h1 h2 h3
    rw [en_to_currency_unfold, if_neg h1, h2]
    have hz : English.int_to_cardinal e (0 : ℤ) =
        .ok (if e.prefer_oh then "oh" else if e.prefer_nil then "nil" else "zero") := by
      simp [English.int_to_cardinal]
    cases hx : English.int_to_cardinal e (trunc_cents q) with
    | error er => simp [hx, hz, Bind.bind, Except.bind, Pure.pure, Except.pure, Except.map, h3]
    | ok w =>
      by_cases hc1 : trunc_cents q = 1 <;>
        simp [hx, hz, Bind.bind, Except.bind, Pure.pure, Except.pure, Except.map, h3, hc1]
  · intro h1 h2 h3
    rw [en_to_currency_unfold, if_neg h1, h2, h3]
    have hz : English.int_to_cardinal e (0 : ℤ) =
        .ok (if e.prefer_oh then "oh" else if e.prefer_nil then "nil" else "zero") := by
      simp [English.int_to_cardinal]
    simp [hz, Bind.bind, Except.bind, Pure.pure, Except.pure, Except.map]

/-- Witness for C8 at the amount 1/100: one cent, singular minor unit. -/
theorem C8_witness :
    (qfrac (mkRat 1 100) ≠ 0 ∧ ratTrunc (mkRat 1 100) = 0 ∧ trunc_cents (mkRat 1 100) ≠ 0) ∧
    English.to_currency ⟨false, false⟩ (.fin (mkRat 1 100)) Currency.DOLLAR =
      (English.int_to_cardinal ⟨false, false⟩ (trunc_cents (mkRat 1 100))).map
        (fun w => w ++ " " ++
          (if trunc_cents (mkRat 1 100) = 1 then English.cents ⟨false, false⟩ Currency.DOLLAR false
           else English.cents ⟨false, false⟩ Currency.DOLLAR true)) :=
  ⟨⟨by decide, by decide, by decide⟩,
   (C8_currency_pluralization ⟨false, false⟩ Currency.DOLLAR (mkRat 1 100)).2.1
     (by decide) (by decide) (by decide)⟩

/-- C1 counterexample: at the amount 1/200 (0.005, a finite amount with
nonzero fractional part whose exact cent fraction is exactly half a
cent), round-half-up of the amount times 100 mod 100 is 1, but the
English and French currency renderers compute the subunit count by
truncation, obtain 0, and render no cent phrase at all: the claim that
the subunit count is computed by round-half-up is false on the code. -/
theorem C1_counterexample :
    round_half_up_cents (mkRat 1 200) = 1 ∧
    trunc_cents (mkRat 1 200) = 0 ∧
    English.to_currency ⟨false, false⟩ (.fin (mkRat 1 200)) Currency.DOLLAR =
      .ok ("zero" ++ " " ++ "dollars") ∧
    French.to_currency ⟨false, false⟩ (.fin (mkRat 1 200)) Currency.DOLLAR =
      .ok ("zéro" ++ " " ++ "dollars") := by
  refine ⟨by decide, by decide, by decide, by decide⟩

/-- C1 amended: the English and French currency renderers compute the
subunit count as truncation toward zero of the amount times 100, then
mod 100 (trunc_cents) - not round-half-up - and render the minor phrase
from that count whenever it is nonzero and the integral part is zero. -/
theorem C1_amended_truncation (e : English) (f : French) (c : Currency) (q : ℚ)
    (h1 : qfrac q ≠ 0) (h2 : ratTrunc q = 0) (h3 : trunc_cents q ≠ 0) :
    English.to_currency e (.fin q) c =
      (English.int_to_cardinal e (trunc_cents q)).map
        (fun w => w ++ " " ++ e.cents c (decide (trunc_cents q ≠ 1))) ∧
    French.to_currency f (.fin q) c =
      (French.int_to_cardinal f (trunc_cents q)).map
        (fun w => w ++ " " ++ f.cents c (decide (trunc_cents q ≠ 1))) := by
  constructor
  · rw [en_to_currency_unfold, if_neg h1, h2]
    have hz : English.int_to_cardinal e (0 : ℤ) =
        .ok (if e.prefer_oh then "oh" else if e.prefer_nil then "nil" else "zero") := by
      simp [English.int_to_cardinal]
    cases hx : English.int_to_cardinal e (trunc_cents q) with
    | error er => simp [hx, hz, Bind.bind, Except.bind, Pure.pure, Except.pure, Except.map, h3]
    | ok w => simp [hx, hz, Bind.bind, Except.bind, Pure.pure, Except.pure, Except.map, h3]
  · rw [fr_to_currency_unfold, if_neg h1, h2]
    have hz : French.int_to_cardinal f (0 : ℤ) = .ok "zéro" := by
      simp [French.int_to_cardinal]
    cases hx : French.int_to_cardinal f (trunc_cents q) with
    | error er => simp [hx, hz, Bind.bind, Except.bind, Pure.pure, Except.pure, Except.map, h3]
    | ok w => simp [hx, hz, Bind.bind, Except.bind, Pure.pure, Except.pure, Except.map, h3]

/-- Witness for the amended C1 at the amount 1/4: twenty-five cents. -/
theorem C1_witness :
    (qfrac (mkRat 1 4) ≠ 0 ∧ ratTrunc (mkRat 1 4) = 0 ∧ trunc_cents (mkRat 1 4) ≠ 0) ∧
    English.to_currency ⟨false, false⟩ (.fin (mkRat 1 4)) Currency.DOLLAR =
      (English.int_to_cardinal ⟨false, false⟩ (trunc_cents (mkRat 1 4))).map
        (fun w => w ++ " " ++
          English.cents ⟨false, false⟩ Currency.DOLLAR (decide (trunc_cents (mkRat 1 4) ≠ 1))) :=
  ⟨⟨by decide, by decide, by decide⟩,
   (C1_amended_truncation ⟨false, false⟩ ⟨false, false⟩ Currency.DOLLAR (mkRat 1 4)
     (by decide) (by decide) (by decide)).1⟩

/-- Witness for C7 at the years 1901 and -44. -/
theorem C7_witness :
    ((0 : ℤ) < 1901 ∧
      English.to_year ⟨false, false⟩ (1901 : ℤ) =
        (if (1901 : ℤ).toNat / 100 = 0 ∨
            ((1901 : ℤ).toNat / 100 % 10 = 0 ∧ (1901 : ℤ).toNat % 100 < 10) ∨
            (1901 : ℤ).toNat / 100 ≥ 100 then
          English.int_to_cardinal ⟨false, false⟩ (1901 : ℤ)
        else do
          let high_word ← English.int_to_cardinal ⟨false, false⟩
            (((1901 : ℤ).toNat / 100 : ℕ) : ℤ)
          let low_word ←
            if (1901 : ℤ).toNat % 100 = 0 then pure "hundred"
            else if (1901 : ℤ).toNat % 100 < 10 then do
              let w ← English.int_to_cardinal ⟨false, false⟩ (((1901 : ℤ).toNat % 100 : ℕ) : ℤ)
              pure ("oh-" ++ w)
            else English.int_to_cardinal ⟨false, false⟩ (((1901 : ℤ).toNat % 100 : ℕ) : ℤ)
          pure (high_word ++ " " ++ low_word))) ∧
    ((-44 : ℤ) < 0 ∧
      English.to_year ⟨false, false⟩ (-44 : ℤ) =
        (English.to_year ⟨false, false⟩ (-(-44 : ℤ))).map (fun w => w ++ " BC")) :=
  ⟨⟨by decide, (C7_to_year_english ⟨false, false⟩ 1901).1 (by decide)⟩,
   ⟨by decide, (C7_to_year_english ⟨false, false⟩ (-44)).2 (by decide)⟩⟩

/-- C6 counterexample: for N = 1/2 the Ukrainian to_cardinal renders the
same words for -N and N (the integral part 0 swallows the sign in the
fractional path), so to_cardinal(-N) is not the minus word, a space and
to_cardinal(N): the claim fails for fractional N below one. -/
theorem C6_counterexample :
    Ukrainian.to_cardinal Ukrainian.default (.fin (mkRat (-1) 2)) =
      some (.ok "нуля цілих пʼяти десятих") ∧
    Ukrainian.to_cardinal Ukrainian.default (.fin (mkRat 1 2)) =
      some (.ok "нуля цілих пʼяти десятих") ∧
    Ukrainian.to_cardinal Ukrainian.default (.fin (mkRat (-1) 2)) ≠
      (Ukrainian.to_cardinal Ukrainian.default (.fin (mkRat 1 2))).map
        (Except.map (fun s => Ukrainian.MINUS ++ " " ++ s)) := by
  refine ⟨by decide, by decide, by decide⟩

/-- C6 amended: for every integral N > 0, to_cardinal(-N) equals the
minus word of the language followed by the word separator of the
language (a space; a hyphen for reformed French spelling) followed by
to_cardinal(N), for English, French and Ukrainian. -/
theorem C6_amended_sign_invariant (e : English) (f : French) (u : Ukrainian) (q : ℚ)
    (hden : q.den = 1) (hpos : 0 < q) :
    English.to_cardinal e (.fin (-q)) =
      (English.to_cardinal e (.fin q)).map (Except.map (fun s => "minus" ++ " " ++ s)) ∧
    French.to_cardinal f (.fin (-q)) =
      (French.to_cardinal f (.fin q)).map
        (Except.map (fun s => "moins" ++ (if f.reformed then "-" else " ") ++ s)) ∧
    Ukrainian.to_cardinal u (.fin (-q)) =
      (Ukrainian.to_cardinal u (.fin q)).map
        (Except.map (fun s => Ukrainian.MINUS ++ " " ++ s)) := by
  have hdneg : (-q).den = 1 := by rw [Rat.neg_den]; exact hden
  have hnneg : (-q).num = -q.num := Rat.neg_num q
  have hnum : 0 < q.num := Rat.num_pos.mpr hpos
  refine ⟨?_, ?_, ?_⟩
  · rw [show English.to_cardinal e (.fin (-q)) =
        (if qfrac (-q) = 0 then some (English.int_to_cardinal e (-q).num)
         else English.float_to_cardinal e (-q)) from rfl,
      show English.to_cardinal e (.fin q) =
        (if qfrac q = 0 then some (English.int_to_cardinal e q.num)
         else English.float_to_cardinal e q) from rfl,
      if_pos (qfrac_of_den_one _ hdneg), if_pos (qfrac_of_den_one _ hden),
      hnneg, en_int_neg e q.num hnum]
    rfl
  · rw [show French.to_cardinal f (.fin (-q)) =
        (if qfrac (-q) = 0 then some (French.int_to_cardinal f (-q).num)
         else French.float_to_cardinal f (-q)) from rfl,
      show French.to_cardinal f (.fin q) =
        (if qfrac q = 0 then some (French.int_to_cardinal f q.num)
         else French.float_to_cardinal f q) from rfl,
      if_pos (qfrac_of_den_one _ hdneg), if_pos (qfrac_of_den_one _ hden),
      hnneg, fr_int_neg f q.num hnum]
    rfl
  · rw [show Ukrainian.to_cardinal u (.fin (-q)) =
        (if qfrac (-q) = 0 then some (Ukrainian.int_to_cardinal u (-q).num)
         else Ukrainian.float_to_cardinal u (-q)) from rfl,
      show Ukrainian.to_cardinal u (.fin q) =
        (if qfrac q = 0 then some (Ukrainian.int_to_cardinal u q.num)
         else Ukrainian.float_to_cardinal u q) from rfl,
      if_pos (qfrac_of_den_one _ hdneg), if_pos (qfrac_of_den_one _ hden),
      hnneg, uk_int_neg u q.num hnum]
    rfl

/-- Witness for the amended C6 at N = 42 in English. -/
theorem C6_witness :
    ((mkRat 42 1 : ℚ).den = 1 ∧ (0 : ℚ) < mkRat 42 1) ∧
    English.to_cardinal ⟨false, false⟩ (.fin (-(mkRat 42 1))) =
      (English.to_cardinal ⟨false, false⟩ (.fin (mkRat 42 1))).map
        (Except.map (fun s => "minus" ++ " " ++ s)) :=
  ⟨⟨by decide, by decide⟩,
   (C6_amended_sign_invariant ⟨false, false⟩ ⟨false, false⟩ Ukrainian.default (mkRat 42 1)
     (by decide) (by decide)).1⟩
